import Mathlib

/-!
Verification of `scripts/generate-metadata.py`: a batch converter that maps a
sequence of card records to per-card ERC-721 metadata JSON files, writes only
files whose content changed, removes stale files, and maintains a name index.

The script is embedded shallowly: Python dict/JSON values become the `Value`
inductive, the filesystem output directory becomes an association list from
filename to file content, and the module-level statements of the script become
the `syncLoop` / `reconcile` / `run` / `program` functions below.  Machine
behaviour that the script relies on (`str(i)` for naturals, `int(...)`
parsing, `str.replace`, `str.endswith`, `re.sub("[^a-z0-9]+", "-", _)`,
`str.strip("-")`) is modelled by small executable functions, each written with
structural recursion so that concrete runs evaluate inside the kernel.
-/

/-- Decimal digits of a natural number, most significant first, driven by a
fuel argument so the recursion is structural (matches Python `str(i)` for a
natural `i`; `natReprAux (n+1) n` always has enough fuel). -/
def natReprAux : Nat → Nat → List Char
  | 0, _ => []
  | fuel + 1, n =>
    if n < 10 then [Nat.digitChar n]
    else natReprAux fuel (n / 10) ++ [Nat.digitChar (n % 10)]

/-- Python `str(i)` for a natural number `i` (used for `f"{i}.json"` and
`f"Card_{i}"`). -/
def natRepr (n : Nat) : String := ⟨natReprAux (n + 1) n⟩

/-- Python `str(i)` for an integer (used by `json` for numbers and by
`str(...)` on numeric fields). -/
def intRepr (n : Int) : String :=
  if n < 0 then "-" ++ natRepr n.natAbs else natRepr n.toNat

/-- The decimal digit characters `'0'..'9'`. -/
def isDec (c : Char) : Bool := '0' ≤ c && c ≤ '9'

/-- Numeric value of a decimal digit character. -/
def decVal (c : Char) : Nat := c.toNat - 48

/-- Parse a run of decimal digits, allowing single underscores between
digits, accumulating into `acc` (the tail of Python `int(...)` parsing:
`digit ('_'? digit)*`). -/
def parseDigitsAux (acc : Nat) : List Char → Option Nat
  | [] => some acc
  | c :: rest =>
    if c = '_' then
      match rest with
      | [] => none
      | d :: rest2 => if isDec d then parseDigitsAux (10 * acc + decVal d) rest2 else none
    else if isDec c then parseDigitsAux (10 * acc + decVal c) rest
    else none

/-- Parse a nonempty digit run (with Python's underscore rule); `none` on the
empty list, a leading underscore, or any non-digit. -/
def parseDigits : List Char → Option Nat
  | [] => none
  | c :: rest => if isDec c then parseDigitsAux (decVal c) rest else none

/-- Characters stripped by Python `int(...)` around the number. -/
def pyWs (c : Char) : Bool :=
  c = ' ' || c = '\t' || c = '\n' || c = '\r' || c = '\x0b' || c = '\x0c'

/-- The sign-and-digits part of Python `int(...)` after whitespace
stripping. -/
def pyIntCore : List Char → Option Int
  | [] => none
  | c :: rest =>
    if c = '+' then (parseDigits rest).map Int.ofNat
    else if c = '-' then (parseDigits rest).map (fun n => -(n : Int))
    else (parseDigits (c :: rest)).map Int.ofNat

/-- Python `int(s)` returning `none` where Python raises `ValueError`:
optional surrounding whitespace, optional sign, then digits with single
underscores between digits. -/
def pyInt? (s : String) : Option Int :=
  pyIntCore (((s.data.dropWhile pyWs).reverse.dropWhile pyWs).reverse)

/-- Replace every (non-overlapping, left-to-right) occurrence of `pat` in the
list, with a structural fuel argument (fuel one more than the list length
suffices; mirrors Python `str.replace` for a nonempty pattern). -/
def replAux (pat : List Char) : Nat → List Char → List Char
  | 0, s => s
  | _ + 1, [] => []
  | fuel + 1, c :: rest =>
    if pat ≠ [] ∧ pat.isPrefixOf (c :: rest) then
      replAux pat fuel ((c :: rest).drop pat.length)
    else c :: replAux pat fuel rest

/-- Python `s.replace(pat, "")` for a nonempty `pat`. -/
def pyReplace (s pat : String) : String := ⟨replAux pat.data (s.data.length + 1) s.data⟩

/-- Python `s.endswith(suf)`. -/
def pyEndsWith (s suf : String) : Bool := suf.data.isSuffixOf s.data

/-- Characters the slug keeps: the regex class `[a-z0-9]` of
`re.sub(r"[^a-z0-9]+", "-", name.lower())`. -/
def slugAllowed (c : Char) : Bool := ('a' ≤ c && c ≤ 'z') || isDec c

/-- Collapse every maximal run of disallowed characters to a single hyphen
(`re.sub(r"[^a-z0-9]+", "-", _)`); the flag records whether we are inside a
disallowed run whose hyphen has already been emitted. -/
def collapseAux : Bool → List Char → List Char
  | _, [] => []
  | inRun, c :: rest =>
    if slugAllowed c then c :: collapseAux false rest
    else if inRun then collapseAux inRun rest
    else '-' :: collapseAux true rest

/-- Python `s.strip("-")`. -/
def stripHyphens (s : List Char) : List Char :=
  ((s.dropWhile (fun c => c = '-')).reverse.dropWhile (fun c => c = '-')).reverse

/-- The slug of a card name: `re.sub(r"[^a-z0-9]+", "-", name.lower()).strip("-")`
(line 108 of the script).  `Char.toLower` models Python `str.lower` on the
ASCII range; outside ASCII both lowercasings produce characters outside
`[a-z0-9]`, which the collapse step erases identically. -/
def pySlug (s : String) : String :=
  ⟨stripHyphens (collapseAux false (s.data.map Char.toLower))⟩

/-! ## JSON-like values and card records -/

/-- A Python/JSON value as the script manipulates it (`cards` is a list of
dicts of such values). -/
inductive Value where
  | null : Value
  | bool : Bool → Value
  | num : Int → Value
  | str : String → Value
  | arr : List Value → Value
  | obj : List (String × Value) → Value

/-- Python truthiness, used by every `if card.get(...)` test in the script. -/
def Value.truthy : Value → Bool
  | .null => false
  | .bool b => b
  | .num n => n != 0
  | .str s => !s.isEmpty
  | .arr l => !l.isEmpty
  | .obj l => !l.isEmpty

/-- `isinstance(v, dict)`. -/
def Value.isObj : Value → Bool
  | .obj _ => true
  | _ => false

/-- `d.get(k)` on a dict value: `none` both when the value is not a dict and
when the key is absent (the script only calls it after an `isinstance`
guard, where absence maps to Python `None` = falsy, matching `.null`). -/
def Value.dget : Value → String → Value
  | .obj l, k => (match l.find? (fun e => e.1 = k) with
    | some e => e.2
    | none => .null)
  | _, _ => .null

/-- One card record: the key/value pairs of its JSON object. -/
abbrev Card : Type := List (String × Value)

/-- `card.get(k)` (`none` = Python `None` default for an absent key). -/
def Card.get (card : Card) (k : String) : Option Value :=
  match List.find? (fun (e : String × Value) => e.1 = k) card with
  | some e => some e.2
  | none => none

/-- Truthiness of `card.get(k)` (absent keys are falsy, like Python `None`). -/
def Card.truthyAt (card : Card) (k : String) : Bool :=
  match card.get k with
  | some v => v.truthy
  | none => false

/-- `card[k]` where the script has already checked truthiness (so the key is
present); `.null` is never reached under that guard. -/
def Card.at (card : Card) (k : String) : Value := (card.get k).getD .null

mutual

/-- Python `str(v)` / `repr(v)`: `str` is only applied by the script to the
`level` field and to stat `value` sub-fields.  Containers follow Python
`repr` shape (single-quoted strings; quote-escaping inside container strings
is not exercised by any claim). -/
def pyStr : Value → String
  | .null => "None"
  | .bool true => "True"
  | .bool false => "False"
  | .num n => intRepr n
  | .str s => s
  | .arr l => "[" ++ pyReprList l ++ "]"
  | .obj l => "\x7b" ++ pyReprObj l ++ "\x7d"

/-- Python `repr(v)`: like `pyStr` but strings are quoted. -/
def pyRepr : Value → String
  | .null => "None"
  | .bool true => "True"
  | .bool false => "False"
  | .num n => intRepr n
  | .str s => "'" ++ s ++ "'"
  | .arr l => "[" ++ pyReprList l ++ "]"
  | .obj l => "\x7b" ++ pyReprObj l ++ "\x7d"

def pyReprList : List Value → String
  | [] => ""
  | [v] => pyRepr v
  | v :: rest => pyRepr v ++ ", " ++ pyReprList rest

def pyReprObj : List (String × Value) → String
  | [] => ""
  | [(k, v)] => "'" ++ k ++ "': " ++ pyRepr v
  | (k, v) :: rest => "'" ++ k ++ "': " ++ pyRepr v ++ ", " ++ pyReprObj rest

end

/-! ## The transformer: `build_metadata` (lines 26-98) -/

/-- One entry of the `attributes` list: `{"trait_type": ..., "value": ...}`. -/
structure Attr where
  trait_type : String
  value : Value

/-- `if cond: attrs.append({"trait_type": t, "value": v})`. -/
def optAttr (cond : Bool) (t : String) (v : Value) : List Attr :=
  if cond then [⟨t, v⟩] else []

/-- Lines 41-50: the five standard attributes, in source order. -/
def standardAttrs (card : Card) : List Attr :=
  optAttr (card.truthyAt "type") "Type" (card.at "type")
    ++ optAttr (card.truthyAt "rarity") "Rarity" (card.at "rarity")
    ++ optAttr (card.truthyAt "level") "Level" (.str (pyStr (card.at "level")))
    ++ optAttr (card.truthyAt "subtitle") "Move" (card.at "subtitle")
    ++ optAttr (card.truthyAt "artist") "Artist" (card.at "artist")

/-- Line 55's guard for one stat key: `stat and isinstance(stat, dict) and
stat.get("value")`. -/
def statCond (card : Card) (key : String) : Bool :=
  ((card.get key).getD .null).truthy && ((card.get key).getD .null).isObj &&
    (((card.get key).getD .null).dget "value").truthy

/-- `stat["value"]` for one stat key. -/
def statVal (card : Card) (key : String) : Value := ((card.get key).getD .null).dget "value"

/-- `stat.get("color")` for one stat key. -/
def statColor (card : Card) (key : String) : Value := ((card.get key).getD .null).dget "color"

/-- Lines 53-59, one iteration: `stat = card.get(stat_key)`; if `stat` is a
truthy dict with a truthy `value`, emit the value trait and, if `color` is
truthy, the gradient trait right after it. -/
def statAttrFor (card : Card) (key disp : String) : List Attr :=
  if statCond card key then
    ⟨disp, .str (pyStr (statVal card key))⟩
      :: optAttr (statColor card key).truthy (disp ++ " Gradient") (statColor card key)
  else []

/-- Lines 53-59: the loop over `[("hp","HP"), ("manaCost","Mana Cost"),
("crit","Crit")]`, unrolled in the same order. -/
def statAttrs (card : Card) : List Attr :=
  statAttrFor card "hp" "HP"
    ++ statAttrFor card "manaCost" "Mana Cost"
    ++ statAttrFor card "crit" "Crit"

/-- Line 69-77: the `section_labels` dict, in insertion order. -/
def sectionLabels : List (String × String) :=
  [("header", "Header"), ("imageArea", "Image Area"), ("typeSection", "Type Section"),
   ("flavorText", "Flavor Text"), ("bottomSection", "Bottom Section"), ("stat", "Stat"),
   ("rarity", "Rarity Badge")]

/-- Lines 78-89, one iteration: skip a falsy or non-dict section, else emit
up to four traits in fixed order. -/
def sectionAttrs (label : String) (sec : Value) : List Attr :=
  if sec.truthy && sec.isObj then
    optAttr (sec.dget "background").truthy (label ++ " Background") (sec.dget "background")
      ++ optAttr (sec.dget "color").truthy (label ++ " Color") (sec.dget "color")
      ++ optAttr (sec.dget "border").truthy (label ++ " Border") (sec.dget "border")
      ++ optAttr (sec.dget "accentColor").truthy (label ++ " Accent") (sec.dget "accentColor")
  else []

/-- Lines 62-63: `theme = card.get("theme"); if theme and isinstance(theme, dict)`. -/
def themeCond (card : Card) : Bool :=
  match card.get "theme" with
  | some v => v.truthy && v.isObj
  | none => false

/-- The theme value (`card.get("theme")`, `.null` when absent). -/
def themeVal (card : Card) : Value := (card.get "theme").getD .null

/-- Lines 62-89: all theme attributes. -/
def themeAttrs (card : Card) : List Attr :=
  if themeCond card then
    let t := themeVal card
    optAttr (t.dget "background").truthy "Card Background" (t.dget "background")
      ++ (sectionLabels.map (fun p => sectionAttrs p.2 (t.dget p.1))).flatten
  else []

/-- The full `attributes` list of `build_metadata`, in emission order. -/
def attrsList (card : Card) : List Attr :=
  standardAttrs card ++ statAttrs card ++ themeAttrs card

/-- `x or y` (Python): `x` if truthy else `y`; `card.get(k)` may be absent. -/
def pyOrElse (o : Option Value) (fallback : Value) : Value :=
  match o with
  | some v => if v.truthy then v else fallback
  | none => fallback

/-- An attribute as the JSON object the script appends. -/
def attrToValue (a : Attr) : Value :=
  .obj [("trait_type", .str a.trait_type), ("value", a.value)]

/-- `build_metadata(card, idx)` (lines 26-98).  The dict is built with keys
name, description, image, external_url, attributes, properties; `properties`
receives the theme (line 92) exactly when the line-63 guard held, and the
`del meta["properties"]` of line 96 otherwise removes the empty map — which
is the same as conditionally appending the pair. -/
def build_metadata (card : Card) (idx : Nat) : Value :=
  .obj ([("name", (card.get "name").getD (.str ("Card_" ++ natRepr idx))),
         ("description", pyOrElse (card.get "flavorText") (.str "A Whirlpool card")),
         ("image", (card.get "image").getD (.str "")),
         ("external_url", .str "https://howlonghasitben.github.io/cog-works/"),
         ("attributes", .arr ((attrsList card).map attrToValue))]
    ++ (if themeCond card then [("properties", .obj [("theme", themeVal card)])] else []))

/-- Field access on the produced document (dict lookup). -/
def getField (v : Value) (k : String) : Option Value :=
  match v with
  | .obj l => (l.find? (fun e => e.1 = k)).map (fun e => e.2)
  | _ => none

/-- How many attributes of the list carry a given trait name. -/
def countTrait (l : List Attr) (t : String) : Nat := l.countP (fun a => a.trait_type = t)

/-! ## The serializer (lines 101-103) -/

/-- JSON string escaping as `json.dumps` with `ensure_ascii=False` performs
it: quote, backslash and control characters escaped, everything else kept
literally. -/
def jsonEscapeChar (c : Char) : String :=
  if c = '"' then "\\\""
  else if c = '\\' then "\\\\"
  else if c = '\n' then "\\n"
  else if c = '\t' then "\\t"
  else if c = '\r' then "\\r"
  else if c = '\x08' then "\\b"
  else if c = '\x0c' then "\\f"
  else if c.toNat < 32 then
    "\\u00" ++ ⟨[Nat.digitChar (c.toNat / 16), Nat.digitChar (c.toNat % 16)]⟩
  else ⟨[c]⟩

/-- A JSON string literal for `s`. -/
def jsonQuote (s : String) : String :=
  "\"" ++ String.join (s.data.map jsonEscapeChar) ++ "\""

mutual

/-- `json.dumps(v, separators=(",", ":"), ensure_ascii=False)`: the compact
serialization of line 103, preserving dict insertion order. -/
def serializeValue : Value → String
  | .null => "null"
  | .bool true => "true"
  | .bool false => "false"
  | .num n => intRepr n
  | .str s => jsonQuote s
  | .arr l => "[" ++ serializeArr l ++ "]"
  | .obj l => "\x7b" ++ serializeObjPairs l ++ "\x7d"

def serializeArr : List Value → String
  | [] => ""
  | [v] => serializeValue v
  | v :: rest => serializeValue v ++ "," ++ serializeArr rest

def serializeObjPairs : List (String × Value) → String
  | [] => ""
  | [(k, v)] => jsonQuote k ++ ":" ++ serializeValue v
  | (k, v) :: rest => jsonQuote k ++ ":" ++ serializeValue v ++ "," ++ serializeObjPairs rest

end

/-! ## The output directory and the sync writer (lines 106-126) -/

/-- Lookup in an association list with string keys (first match). -/
def assocFind {A : Type} (l : List (String × A)) (k : String) : Option A :=
  match l.find? (fun e => e.1 = k) with
  | some e => some e.2
  | none => none

/-- Update of an association list with string keys: in place for an existing
key (keeping its position), append for a new one — the behaviour both of a
Python dict assignment and of a filesystem write. -/
def assocUpd {A : Type} (l : List (String × A)) (k : String) (v : A) : List (String × A) :=
  match l with
  | [] => [(k, v)]
  | e :: rest => if e.1 = k then (k, v) :: rest else e :: assocUpd rest k v

/-- The output directory: an association from filename to file content,
listed in creation order.  Filenames are unique on a real filesystem; writes
to an existing name replace its content in place. -/
abbrev Dir : Type := List (String × String)

/-- `open(path).read()` / `os.path.exists`: the content at a name. -/
def Dir.find (d : Dir) (p : String) : Option String := assocFind d p

/-- `open(path, "w").write(content)`: replace in place if the name exists,
else create it. -/
def Dir.write (d : Dir) (p : String) (content : String) : Dir := assocUpd d p content

/-- The target path of card `i`: `os.path.join(OUT_DIR, f"{i}.json")`
relative to the output directory. -/
def fileName (i : Nat) : String := natRepr i ++ ".json"

/-- One entry of `index_map`: `{"index": i, "slug": slug}` (line 109). -/
structure IndexEntry where
  index : Nat
  slug : String
deriving DecidableEq

/-- `index_map[name] = entry`: Python dict update. -/
def updMap (m : List (String × IndexEntry)) (k : String) (v : IndexEntry) :
    List (String × IndexEntry) := assocUpd m k v

/-- `index_map[name]` lookup. -/
def findMap (m : List (String × IndexEntry)) (k : String) : Option IndexEntry :=
  assocFind m k

/-- The mutable state of the per-card loop: the directory plus the
`written` / `skipped` counters and `index_map`. -/
structure SyncState where
  dir : Dir
  written : Nat
  skipped : Nat
  imap : List (String × IndexEntry)

/-- Lines 106-126, starting at card position `i`.  Per card: enter the name
in `index_map` with its slug (lines 107-109; `name.lower()` raises
`AttributeError` on a present non-string name, aborting the run = `none`);
serialize the metadata; skip when not forced and the existing content is
byte-identical, else write and count. -/
def syncLoop (force : Bool) : Nat → List Card → SyncState → Option SyncState
  | _, [], st => some st
  | i, card :: rest, st =>
    match (card.get "name").getD (.str ("Card_" ++ natRepr i)) with
    | .str name =>
      let imap2 := updMap st.imap name ⟨i, pySlug name⟩
      let content := serializeValue (build_metadata card i)
      let path := fileName i
      if force = false ∧ st.dir.find path = some content then
        syncLoop force (i + 1) rest ⟨st.dir, st.written, st.skipped + 1, imap2⟩
      else
        syncLoop force (i + 1) rest ⟨st.dir.write path content, st.written + 1, st.skipped, imap2⟩
    | _ => none

/-! ## The reconciler (lines 129-140) -/

/-- Whether the loop body of lines 130-140 removes directory entry `fname`:
not the index file, ends with `".json"`, and `int(fname.replace(".json", ""))`
parses to at least the total card count (a `ValueError` is silently passed). -/
def staleCond (total : Nat) (fname : String) : Bool :=
  if fname = "index.json" then false
  else if pyEndsWith fname ".json" then
    match pyInt? (pyReplace fname ".json") with
    | some idx => (total : Int) ≤ idx
    | none => false
  else false

/-- The deletion rule as the specification words it (claim C2): an entry
other than the index file is deleted exactly when its filename parses as an
integer that is at least the total card count — reading "filename" as the
name with a single trailing `.json` extension removed when present, and with
no other condition. -/
def specStaleCond (total : Nat) (fname : String) : Bool :=
  if fname = "index.json" then false
  else
    let stem := if pyEndsWith fname ".json" then
        (⟨fname.data.take (fname.data.length - 5)⟩ : String)
      else fname
    match pyInt? stem with
    | some idx => (total : Int) ≤ idx
    | none => false

/-- Lines 129-140: one scan over the directory listing, removing every entry
satisfying `staleCond` and counting the removals (removal of one entry never
changes the condition on another, so the fold over the `os.listdir` snapshot
is the filter). -/
def reconcile (total : Nat) (d : Dir) : Dir × Nat :=
  (d.filter (fun e => !staleCond total e.1), d.countP (fun e => staleCond total e.1))

/-! ## The index writer (lines 143-144) and the whole run -/

/-- `json.dump(entry, indent=2)` body for one index entry. -/
def serializeIndexEntry (e : IndexEntry) : String :=
  "\x7b\n    \"index\": " ++ natRepr e.index ++ ",\n    \"slug\": " ++ jsonQuote e.slug
    ++ "\n  \x7d"

/-- `json.dump(index_map, f, indent=2)` (line 144; `json.dump` escaping of
non-ASCII names — `ensure_ascii` defaults to true there — is not distinguished
by anything proved about this file's bytes). -/
def serializeIndexMap (m : List (String × IndexEntry)) : String :=
  match m with
  | [] => "\x7b\x7d"
  | _ =>
    "\x7b\n"
      ++ String.intercalate ",\n"
        (m.map (fun e => "  " ++ jsonQuote e.1 ++ ": " ++ serializeIndexEntry e.2))
      ++ "\n\x7d"

/-- The counters and final directory of one run. -/
structure RunResult where
  dir : Dir
  written : Nat
  skipped : Nat
  stale : Nat
  imap : List (String × IndexEntry)

/-- Lines 106-144 of the script over an already-loaded card list: the
per-card sync loop, the stale-file reconciliation, then the unconditional
index write.  `none` models an uncaught exception aborting the run. -/
def run (force : Bool) (cards : List Card) (dir0 : Dir) : Option RunResult :=
  match syncLoop force 0 cards ⟨dir0, 0, 0, []⟩ with
  | none => none
  | some st =>
    let rc := reconcile cards.length st.dir
    some ⟨(rc.1).write "index.json" (serializeIndexMap st.imap), st.written, st.skipped,
          rc.2, st.imap⟩

/-- The filesystem as the whole script sees it: whether the output directory
exists, and its contents. -/
structure FS where
  dirExists : Bool
  dir : Dir
deriving DecidableEq

/-- Lines 17-146 of the script: `os.makedirs(OUT_DIR, exist_ok=True)` runs
first; `json.load` then either yields the card list or raises
(`input = none`), in which case nothing further executes.  A `none` overall
result is an aborted run (the partial directory state of a mid-run crash is
not tracked; only the malformed-input abort is examined through `program`). -/
def program (force : Bool) (input : Option (List Card)) (fs : FS) : FS × Option RunResult :=
  let fs1 : FS := ⟨true, fs.dir⟩
  match input with
  | none => (fs1, none)
  | some cards =>
    match run force cards fs1.dir with
    | none => (fs1, none)
    | some r => (⟨true, r.dir⟩, some r)

/-- The per-card documents a run writes into a fresh directory, in creation
order: entry `j` of the list is card `j`'s filename at index `i0 + j` paired
with its serialized metadata. -/
def docList : Nat → List Card → Dir
  | _, [] => []
  | i, card :: rest =>
    (fileName i, serializeValue (build_metadata card i)) :: docList (i + 1) rest

/-! ## Decimal representation and parsing lemmas -/

/-- The numeric value of a big-endian digit string. -/
def valOfDigits (l : List Char) : Nat := l.foldl (fun a c => 10 * a + decVal c) 0

theorem isDec_digitChar (n : Nat) (h : n < 10) : isDec (Nat.digitChar n) = true := by
  interval_cases n <;> decide

theorem decVal_digitChar (n : Nat) (h : n < 10) : decVal (Nat.digitChar n) = n := by
  interval_cases n <;> decide

theorem natReprAux_digits (fuel n : Nat) : ∀ c ∈ natReprAux fuel n, isDec c = true := by
  induction fuel generalizing n with
  | zero => simp [natReprAux]
  | succ f ih =>
    intro c hc
    unfold natReprAux at hc
    split at hc
    · next h =>
      simp only [List.mem_singleton] at hc
      subst hc
      exact isDec_digitChar n h
    · next h =>
      rcases List.mem_append.mp hc with h1 | h1
      · exact ih (n / 10) c h1
      · simp only [List.mem_singleton] at h1
        subst h1
        exact isDec_digitChar _ (Nat.mod_lt n (by omega))

theorem natReprAux_ne_nil (fuel n : Nat) : natReprAux (fuel + 1) n ≠ [] := by
  unfold natReprAux
  split <;> simp

theorem valOfDigits_concat (xs : List Char) (c : Char) :
    valOfDigits (xs ++ [c]) = 10 * valOfDigits xs + decVal c := by
  unfold valOfDigits
  rw [List.foldl_append]
  rfl

theorem natReprAux_val (fuel n : Nat) (h : n < 10 ^ fuel) :
    valOfDigits (natReprAux fuel n) = n := by
  induction fuel generalizing n with
  | zero =>
    simp only [pow_zero, Nat.lt_one_iff] at h
    subst h
    rfl
  | succ f ih =>
    unfold natReprAux
    split
    · next h10 =>
      show valOfDigits [Nat.digitChar n] = n
      unfold valOfDigits
      simp [List.foldl, decVal_digitChar n h10]
    · next h10 =>
      have hn10 : ¬ n < 10 := h10
      have hdiv : n / 10 < 10 ^ f := by
        rw [Nat.div_lt_iff_lt_mul (by omega)]
        calc n < 10 ^ (f + 1) := h
        _ = 10 ^ f * 10 := by ring
      rw [valOfDigits_concat, ih (n / 10) hdiv, decVal_digitChar _ (Nat.mod_lt n (by omega))]
      omega

theorem natRepr_data (n : Nat) : (natRepr n).data = natReprAux (n + 1) n := rfl

theorem natRepr_digits (n : Nat) : ∀ c ∈ (natRepr n).data, isDec c = true :=
  natReprAux_digits (n + 1) n

theorem natRepr_data_ne_nil (n : Nat) : (natRepr n).data ≠ [] := natReprAux_ne_nil n n

theorem lt_ten_pow_succ (n : Nat) : n < 10 ^ (n + 1) :=
  lt_of_lt_of_le (Nat.lt_pow_self (by omega) n)
    (Nat.pow_le_pow_right (by omega) (Nat.le_succ n))

theorem valOfDigits_natRepr (n : Nat) : valOfDigits (natRepr n).data = n :=
  natReprAux_val (n + 1) n (lt_ten_pow_succ n)

theorem isDec_ne_underscore {c : Char} (h : isDec c = true) : ¬ c = '_' := by
  intro he
  subst he
  exact absurd h (by decide)

theorem parseDigitsAux_all (l : List Char) : ∀ acc, (∀ c ∈ l, isDec c = true) →
    parseDigitsAux acc l = some (l.foldl (fun a c => 10 * a + decVal c) acc) := by
  induction l with
  | nil => intro acc _; rfl
  | cons c rest ih =>
    intro acc h
    have hc : isDec c = true := h c (by simp)
    unfold parseDigitsAux
    rw [if_neg (isDec_ne_underscore hc), if_pos hc,
      ih _ (fun d hd => h d (by simp [hd]))]
    rfl

theorem parseDigits_all (l : List Char) (hne : l ≠ []) (h : ∀ c ∈ l, isDec c = true) :
    parseDigits l = some (valOfDigits l) := by
  cases l with
  | nil => cases hne rfl
  | cons c rest =>
    have hc := h c (by simp)
    simp only [parseDigits]
    rw [if_pos hc, parseDigitsAux_all rest _ (fun d hd => h d (by simp [hd]))]
    unfold valOfDigits
    simp only [List.foldl_cons]
    rw [show 10 * 0 + decVal c = decVal c by omega]

theorem isDec_not_pyWs {c : Char} (h : isDec c = true) : pyWs c = false := by
  by_contra hw
  rw [Bool.not_eq_false] at hw
  simp only [pyWs, Bool.or_eq_true, decide_eq_true_eq] at hw
  rcases hw with ((((h1 | h1) | h1) | h1) | h1) | h1 <;> (subst h1; exact absurd h (by decide))

theorem dropWhile_eq_self_of {l : List Char} {p : Char → Bool}
    (h : ∀ c ∈ l, p c = false) : l.dropWhile p = l := by
  cases l with
  | nil => rfl
  | cons c rest =>
    rw [List.dropWhile_cons, h c (by simp)]
    simp

theorem pyInt?_natRepr (n : Nat) : pyInt? (natRepr n) = some (n : Int) := by
  unfold pyInt?
  have hd := natRepr_digits n
  rw [dropWhile_eq_self_of (fun c hc => isDec_not_pyWs (hd c hc)),
    dropWhile_eq_self_of (fun c hc => isDec_not_pyWs (hd c (List.mem_reverse.mp hc))),
    List.reverse_reverse]
  cases hld : (natRepr n).data with
  | nil => exact absurd hld (natRepr_data_ne_nil n)
  | cons c rest =>
    have hc : isDec c = true := hd c (by rw [hld]; simp)
    have hplus : ¬ c = '+' := fun he => by subst he; exact absurd hc (by decide)
    have hminus : ¬ c = '-' := fun he => by subst he; exact absurd hc (by decide)
    simp only [pyIntCore]
    rw [if_neg hplus, if_neg hminus,
      parseDigits_all (c :: rest) (by simp) (fun d hdm => hd d (by rw [hld]; exact hdm)),
      ← hld, valOfDigits_natRepr]
    rfl

theorem natRepr_inj {a b : Nat} (h : natRepr a = natRepr b) : a = b := by
  have ha := pyInt?_natRepr a
  rw [h, pyInt?_natRepr b] at ha
  simpa using ha.symm

/-! ## Filename lemmas -/

theorem fileName_data (i : Nat) : (fileName i).data = (natRepr i).data ++ ".json".data :=
  String.data_append _ _

theorem fileName_inj {a b : Nat} (h : fileName a = fileName b) : a = b := by
  have hd : (natRepr a).data ++ ".json".data = (natRepr b).data ++ ".json".data := by
    rw [← fileName_data, ← fileName_data, h]
  exact natRepr_inj (String.ext (List.append_cancel_right hd))

theorem fileName_ne_index (i : Nat) : fileName i ≠ "index.json" := by
  intro h
  have hd : (natRepr i).data ++ ".json".data = "index".data ++ ".json".data := by
    rw [← fileName_data, h]
    rfl
  have hni : natRepr i = "index" := String.ext (List.append_cancel_right hd)
  have h2 := pyInt?_natRepr i
  rw [hni] at h2
  rw [show pyInt? "index" = none from by decide] at h2
  exact Option.noConfusion h2

theorem replAux_nil (p : List Char) (fuel : Nat) : replAux p fuel [] = [] := by
  cases fuel <;> rfl

theorem replAux_digits_append (s : List Char) : ∀ fuel, (∀ c ∈ s, isDec c = true) →
    s.length + 5 ≤ fuel → replAux ".json".data fuel (s ++ ".json".data) = s := by
  induction s with
  | nil =>
    intro fuel _ hf
    cases fuel with
    | zero => omega
    | succ f =>
      simp only [List.nil_append]
      show replAux ".json".data (f + 1) ('.' :: "json".data) = []
      unfold replAux
      rw [if_pos ⟨by decide, by rw [List.isPrefixOf_iff_prefix]⟩]
      · show replAux ".json".data f (('.' :: "json".data).drop ".json".data.length) = []
        rw [show ('.' :: "json".data).drop ".json".data.length = [] from by decide]
        exact replAux_nil _ _
  | cons c s' ih =>
    intro fuel h hf
    cases fuel with
    | zero => omega
    | succ f =>
      show replAux ".json".data (f + 1) (c :: (s' ++ ".json".data)) = c :: s'
      unfold replAux
      rw [if_neg ?hcond]
      case hcond =>
        rintro ⟨-, hp⟩
        have hc := h c (by simp)
        have : ('.' :: "json".data).isPrefixOf (c :: (s' ++ ".json".data)) = true := hp
        simp only [List.isPrefixOf, Bool.and_eq_true, beq_iff_eq] at this
        rw [← this.1] at hc
        exact absurd hc (by decide)
      rw [ih f (fun d hd => h d (by simp [hd])) (by simp at hf; omega)]

theorem pyReplace_fileName (i : Nat) : pyReplace (fileName i) ".json" = natRepr i := by
  apply String.ext
  show replAux ".json".data ((fileName i).data.length + 1) (fileName i).data = _
  rw [fileName_data]
  apply replAux_digits_append _ _ (natRepr_digits i)
  rw [List.length_append]
  have h5 : (".json".data).length = 5 := rfl
  omega

theorem pyEndsWith_fileName (i : Nat) : pyEndsWith (fileName i) ".json" = true := by
  unfold pyEndsWith
  rw [List.isSuffixOf_iff_suffix, fileName_data]
  exact List.suffix_append _ _

theorem staleCond_fileName (total i : Nat) :
    staleCond total (fileName i) = decide (total ≤ i) := by
  unfold staleCond
  rw [if_neg (fileName_ne_index i)]
  simp only [pyEndsWith_fileName i, if_true, pyReplace_fileName i, pyInt?_natRepr i]
  rw [decide_eq_decide]
  exact Int.ofNat_le

/-! ## Association-list algebra -/

theorem assocFind_nil {A : Type} (k : String) : assocFind ([] : List (String × A)) k = none := rfl

theorem assocFind_cons {A : Type} (e : String × A) (l : List (String × A)) (k : String) :
    assocFind (e :: l) k = if e.1 = k then some e.2 else assocFind l k := by
  by_cases h : e.1 = k <;> simp [assocFind, List.find?_cons, h]

theorem assocFind_upd_self {A : Type} (l : List (String × A)) (k : String) (v : A) :
    assocFind (assocUpd l k v) k = some v := by
  induction l with
  | nil => simp [assocUpd, assocFind_cons]
  | cons e rest ih =>
    unfold assocUpd
    by_cases h : e.1 = k
    · rw [if_pos h, assocFind_cons, if_pos rfl]
    · rw [if_neg h, assocFind_cons, if_neg h, ih]

theorem assocFind_upd_ne {A : Type} (l : List (String × A)) (k : String) (v : A)
    (q : String) (h : q ≠ k) : assocFind (assocUpd l k v) q = assocFind l q := by
  induction l with
  | nil =>
    rw [show assocUpd ([] : List (String × A)) k v = [(k, v)] from rfl, assocFind_cons]
    rw [if_neg (show ¬ ((k, v).1 = q) from fun hq => h hq.symm)]
  | cons e rest ih =>
    unfold assocUpd
    by_cases he : e.1 = k
    · rw [if_pos he, assocFind_cons, assocFind_cons]
      rw [if_neg (show ¬ ((k, v).1 = q) from fun hq => h hq.symm)]
      rw [if_neg (show ¬ (e.1 = q) from fun hq => h ((he.symm.trans hq).symm))]
    · rw [if_neg he, assocFind_cons, assocFind_cons, ih]

theorem assocFind_filter {A : Type} (l : List (String × A)) (f : String → Bool) (k : String) :
    assocFind (l.filter (fun e => !f e.1)) k = if f k = true then none else assocFind l k := by
  induction l with
  | nil => cases hfk : f k <;> simp [assocFind]
  | cons e rest ih =>
    obtain ⟨ek, ev⟩ := e
    rw [List.filter_cons]
    by_cases he : ek = k
    · subst he
      cases hfk : f ek <;> simp [hfk, assocFind_cons, ih]
    · cases hfe : f ek <;> simp [hfe, assocFind_cons, he, ih]

/-! ## Sync-writer lemmas -/

theorem dirFind_write_self (d : Dir) (p c : String) : (d.write p c).find p = some c :=
  assocFind_upd_self d p c

theorem dirFind_write_ne (d : Dir) (p c q : String) (h : q ≠ p) :
    (d.write p c).find q = d.find q := assocFind_upd_ne d p c q h

theorem syncLoop_nil (f : Bool) (i : Nat) (st : SyncState) :
    syncLoop f i [] st = some st := rfl

theorem syncLoop_cons (f : Bool) (i : Nat) (card : Card) (rest : List Card) (st : SyncState) :
    syncLoop f i (card :: rest) st =
      match (card.get "name").getD (.str ("Card_" ++ natRepr i)) with
      | .str name =>
        if f = false ∧ st.dir.find (fileName i) =
            some (serializeValue (build_metadata card i)) then
          syncLoop f (i + 1) rest
            ⟨st.dir, st.written, st.skipped + 1, updMap st.imap name ⟨i, pySlug name⟩⟩
        else
          syncLoop f (i + 1) rest
            ⟨st.dir.write (fileName i) (serializeValue (build_metadata card i)),
             st.written + 1, st.skipped, updMap st.imap name ⟨i, pySlug name⟩⟩
      | _ => none := rfl

theorem syncLoop_find_preserved (f : Bool) (cs : List Card) :
    ∀ (i0 : Nat) (st st' : SyncState), syncLoop f i0 cs st = some st' →
    ∀ p, (∀ j, j < cs.length → p ≠ fileName (i0 + j)) → st'.dir.find p = st.dir.find p := by
  induction cs with
  | nil =>
    intro i0 st st' h p _
    rw [syncLoop_nil] at h
    injection h with h'
    rw [h']
  | cons card rest ih =>
    intro i0 st st' h p hp
    rw [syncLoop_cons] at h
    cases hname : (card.get "name").getD (.str ("Card_" ++ natRepr i0)) with
    | str name =>
      rw [hname] at h
      simp only [] at h
      have hrest : ∀ j, j < rest.length → p ≠ fileName (i0 + 1 + j) := by
        intro j hj
        have := hp (j + 1) (by simp; omega)
        rwa [show i0 + (j + 1) = i0 + 1 + j from by omega] at this
      split at h
      · rw [ih (i0 + 1) _ _ h p hrest]
      · rw [ih (i0 + 1) _ _ h p hrest]
        have h0 := hp 0 (by simp)
        rw [Nat.add_zero] at h0
        exact dirFind_write_ne _ _ _ _ h0
    | null => rw [hname] at h; exact Option.noConfusion h
    | bool b => rw [hname] at h; exact Option.noConfusion h
    | num n => rw [hname] at h; exact Option.noConfusion h
    | arr l => rw [hname] at h; exact Option.noConfusion h
    | obj l => rw [hname] at h; exact Option.noConfusion h

theorem syncLoop_find_content (f : Bool) (cs : List Card) :
    ∀ (i0 : Nat) (st st' : SyncState), syncLoop f i0 cs st = some st' →
    ∀ j (hj : j < cs.length),
      st'.dir.find (fileName (i0 + j)) =
        some (serializeValue (build_metadata (cs.get ⟨j, hj⟩) (i0 + j))) := by
  induction cs with
  | nil => intro i0 st st' _ j hj; exact absurd hj (by simp)
  | cons card rest ih =>
    intro i0 st st' h j hj
    rw [syncLoop_cons] at h
    cases hname : (card.get "name").getD (.str ("Card_" ++ natRepr i0)) with
    | str name =>
      rw [hname] at h
      simp only [] at h
      cases j with
      | zero =>
        rw [Nat.add_zero]
        show st'.dir.find (fileName i0) = some (serializeValue (build_metadata card i0))
        have hpres : ∀ st2, syncLoop f (i0 + 1) rest st2 = some st' →
            st'.dir.find (fileName i0) = st2.dir.find (fileName i0) := by
          intro st2 h2
          apply syncLoop_find_preserved f rest (i0 + 1) st2 st' h2
          intro k hk he
          exact absurd (fileName_inj he) (by omega)
        split at h
        · next hcond =>
          rw [hpres _ h]
          exact hcond.2
        · rw [hpres _ h]
          exact dirFind_write_self _ _ _
      | succ k =>
        have hk : k < rest.length := by simp at hj; omega
        split at h
        all_goals
          have h2 := ih (i0 + 1) _ _ h k hk
        all_goals
          rw [show i0 + 1 + k = i0 + (k + 1) from by omega] at h2
        all_goals exact h2
    | null => rw [hname] at h; exact Option.noConfusion h
    | bool b => rw [hname] at h; exact Option.noConfusion h
    | num n => rw [hname] at h; exact Option.noConfusion h
    | arr l => rw [hname] at h; exact Option.noConfusion h
    | obj l => rw [hname] at h; exact Option.noConfusion h

theorem syncLoop_names (f : Bool) (cs : List Card) :
    ∀ (i0 : Nat) (st st' : SyncState), syncLoop f i0 cs st = some st' →
    ∀ j (hj : j < cs.length),
      ∃ s, ((cs.get ⟨j, hj⟩).get "name").getD (.str ("Card_" ++ natRepr (i0 + j))) = .str s := by
  induction cs with
  | nil => intro i0 st st' _ j hj; exact absurd hj (by simp)
  | cons card rest ih =>
    intro i0 st st' h j hj
    rw [syncLoop_cons] at h
    cases hname : (card.get "name").getD (.str ("Card_" ++ natRepr i0)) with
    | str name =>
      rw [hname] at h
      simp only [] at h
      cases j with
      | zero =>
        refine ⟨name, ?_⟩
        rw [Nat.add_zero]
        exact hname
      | succ k =>
        have hk : k < rest.length := by simp at hj; omega
        split at h
        all_goals
          have h2 := ih (i0 + 1) _ _ h k hk
        all_goals
          rw [show i0 + 1 + k = i0 + (k + 1) from by omega] at h2
        all_goals exact h2
    | null => rw [hname] at h; exact Option.noConfusion h
    | bool b => rw [hname] at h; exact Option.noConfusion h
    | num n => rw [hname] at h; exact Option.noConfusion h
    | arr l => rw [hname] at h; exact Option.noConfusion h
    | obj l => rw [hname] at h; exact Option.noConfusion h

theorem syncLoop_all_skip (cs : List Card) :
    ∀ (i0 : Nat) (st : SyncState),
    (∀ j (hj : j < cs.length),
        st.dir.find (fileName (i0 + j)) =
          some (serializeValue (build_metadata (cs.get ⟨j, hj⟩) (i0 + j))) ∧
        ∃ s, ((cs.get ⟨j, hj⟩).get "name").getD (.str ("Card_" ++ natRepr (i0 + j))) = .str s) →
    ∃ m, syncLoop false i0 cs st = some ⟨st.dir, st.written, st.skipped + cs.length, m⟩ := by
  induction cs with
  | nil =>
    intro i0 st _
    obtain ⟨d, w, sk, m⟩ := st
    exact ⟨m, by rw [syncLoop_nil]; simp⟩
  | cons card rest ih =>
    intro i0 st hyp
    obtain ⟨hfind0, s0, hs0⟩ := hyp 0 (by simp)
    simp only [Nat.add_zero, List.get_cons_zero] at hfind0 hs0
    have hrest : ∀ j (hj : j < rest.length),
        st.dir.find (fileName (i0 + 1 + j)) =
          some (serializeValue (build_metadata (rest.get ⟨j, hj⟩) (i0 + 1 + j))) ∧
        ∃ s, ((rest.get ⟨j, hj⟩).get "name").getD (.str ("Card_" ++ natRepr (i0 + 1 + j))) = .str s := by
      intro j hj
      have := hyp (j + 1) (by simp; omega)
      rwa [show i0 + (j + 1) = i0 + 1 + j from by omega] at this
    obtain ⟨m, hm⟩ := ih (i0 + 1)
      ⟨st.dir, st.written, st.skipped + 1, updMap st.imap s0 ⟨i0, pySlug s0⟩⟩ hrest
    have hs0' : (card.get "name").getD (.str ("Card_" ++ natRepr i0)) = .str s0 := hs0
    have hfind0' : st.dir.find (fileName i0) =
        some (serializeValue (build_metadata card i0)) := hfind0
    refine ⟨m, ?_⟩
    rw [syncLoop_cons, hs0']
    simp only []
    rw [if_pos ⟨trivial, hfind0'⟩, hm]
    rw [show st.skipped + 1 + rest.length = st.skipped + (rest.length + 1) from by omega]
    rfl

theorem syncLoop_force_counts (cs : List Card) :
    ∀ (i0 : Nat) (st st' : SyncState), syncLoop true i0 cs st = some st' →
    st'.written = st.written + cs.length ∧ st'.skipped = st.skipped := by
  induction cs with
  | nil =>
    intro i0 st st' h
    rw [syncLoop_nil] at h
    injection h with h'
    rw [h']
    simp
  | cons card rest ih =>
    intro i0 st st' h
    rw [syncLoop_cons] at h
    cases hname : (card.get "name").getD (.str ("Card_" ++ natRepr i0)) with
    | str name =>
      rw [hname] at h
      simp only [] at h
      rw [if_neg (fun hc => Bool.noConfusion hc.1)] at h
      obtain ⟨h1, h2⟩ := ih (i0 + 1) _ _ h
      constructor
      · rw [h1]; simp; omega
      · rw [h2]
    | null => rw [hname] at h; exact Option.noConfusion h
    | bool b => rw [hname] at h; exact Option.noConfusion h
    | num n => rw [hname] at h; exact Option.noConfusion h
    | arr l => rw [hname] at h; exact Option.noConfusion h
    | obj l => rw [hname] at h; exact Option.noConfusion h

/-! ## Run-level lemmas -/

theorem run_eq (f : Bool) (cards : List Card) (d0 : Dir) (r : RunResult)
    (h : run f cards d0 = some r) :
    ∃ st, syncLoop f 0 cards ⟨d0, 0, 0, []⟩ = some st ∧
      r.dir = ((reconcile cards.length st.dir).1).write "index.json" (serializeIndexMap st.imap) ∧
      r.written = st.written ∧ r.skipped = st.skipped ∧
      r.stale = (reconcile cards.length st.dir).2 ∧ r.imap = st.imap := by
  unfold run at h
  cases hs : syncLoop f 0 cards ⟨d0, 0, 0, []⟩ with
  | none => rw [hs] at h; exact Option.noConfusion h
  | some st =>
    rw [hs] at h
    simp only [] at h
    injection h with h'
    subst h'
    exact ⟨st, rfl, rfl, rfl, rfl, rfl, rfl⟩

theorem reconcile_fst (total : Nat) (d : Dir) :
    (reconcile total d).1 = d.filter (fun e => !staleCond total e.1) := rfl

theorem reconcile_find (total : Nat) (d : Dir) (p : String) :
    ((reconcile total d).1).find p =
      if staleCond total p = true then none else d.find p := by
  rw [reconcile_fst]
  exact assocFind_filter d (staleCond total) p

/-- After a completed run, the document of card `j` is on disk with exactly
the serialized content of its freshly built metadata. -/
theorem run_find_fileName (f : Bool) (cards : List Card) (d0 : Dir) (r : RunResult)
    (h : run f cards d0 = some r) :
    ∀ j (hj : j < cards.length),
      r.dir.find (fileName j) =
        some (serializeValue (build_metadata (cards.get ⟨j, hj⟩) j)) := by
  obtain ⟨st, hs, hdir, -, -, -, -⟩ := run_eq f cards d0 r h
  intro j hj
  have h1 := syncLoop_find_content f cards 0 _ _ hs j hj
  simp only [Nat.zero_add] at h1
  rw [hdir, dirFind_write_ne _ _ _ _ (fileName_ne_index j), reconcile_find,
    staleCond_fileName]
  rw [if_neg (by simp; omega)]
  exact h1

/-! ## C1: idempotence of the whole run -/

/-- Claim C1: for every input card sequence, running the generator again with
identical input, with force off, against the output directory left by a first
completed run performs zero per-card writes — the written counter is 0 and
the skipped counter equals the card count. -/
theorem c1_second_run_idempotent (f : Bool) (cards : List Card) (d0 : Dir) (r1 : RunResult)
    (h1 : run f cards d0 = some r1) :
    ∃ r2, run false cards r1.dir = some r2 ∧ r2.written = 0 ∧ r2.skipped = cards.length := by
  obtain ⟨st1, hs1, -, -, -, -, -⟩ := run_eq f cards d0 r1 h1
  have hnames := syncLoop_names f cards 0 _ _ hs1
  have hfind := run_find_fileName f cards d0 r1 h1
  have hyp : ∀ j (hj : j < cards.length),
      Dir.find r1.dir (fileName (0 + j)) =
        some (serializeValue (build_metadata (cards.get ⟨j, hj⟩) (0 + j))) ∧
      ∃ s, ((cards.get ⟨j, hj⟩).get "name").getD
          (.str ("Card_" ++ natRepr (0 + j))) = .str s := by
    intro j hj
    refine ⟨?_, hnames j hj⟩
    simp only [Nat.zero_add]
    exact hfind j hj
  obtain ⟨m, hm⟩ := syncLoop_all_skip cards 0 ⟨r1.dir, 0, 0, []⟩ hyp
  refine ⟨⟨((reconcile cards.length r1.dir).1).write "index.json" (serializeIndexMap m),
    0, 0 + cards.length, (reconcile cards.length r1.dir).2, m⟩, ?_, rfl, by simp⟩
  unfold run
  rw [hm]

/-- Witness for C1 at a concrete one-card input. -/
theorem c1_witness :
    ∃ r2, run false [[("name", Value.str "A")]]
        ((run false [[("name", Value.str "A")]] ([] : Dir)).getD ⟨[], 0, 0, 0, []⟩).dir
          = some r2 ∧
      r2.written = 0 ∧ r2.skipped = 1 := by
  cases hr : run false [[("name", Value.str "A")]] ([] : Dir) with
  | none =>
    have hsome : (run false [[("name", Value.str "A")]] ([] : Dir)).isSome = true := rfl
    rw [hr] at hsome
    exact Bool.noConfusion hsome
  | some r1 =>
    have h := c1_second_run_idempotent false [[("name", Value.str "A")]] [] r1 hr
    exact h

/-! ## C5: force mode writes everything -/

/-- Claim C5: with force mode on, every per-card document is written
unconditionally — the written counter equals the card count, the skipped
counter is 0, and every document ends up on disk with its fresh content. -/
theorem c5_force_mode (cards : List Card) (d0 : Dir) (r : RunResult)
    (h : run true cards d0 = some r) :
    r.written = cards.length ∧ r.skipped = 0 ∧
      ∀ j (hj : j < cards.length),
        r.dir.find (fileName j) =
          some (serializeValue (build_metadata (cards.get ⟨j, hj⟩) j)) := by
  obtain ⟨st, hs, -, hw, hsk, -, -⟩ := run_eq true cards d0 r h
  obtain ⟨h1, h2⟩ := syncLoop_force_counts cards 0 _ _ hs
  refine ⟨?_, ?_, run_find_fileName true cards d0 r h⟩
  · rw [hw, h1]
    simp
  · rw [hsk, h2]

/-- Witness for C5 at a concrete one-card input. -/
theorem c5_witness :
    ∃ r, run true [[]] ([] : Dir) = some r ∧ r.written = 1 ∧ r.skipped = 0 := by
  cases hr : run true [[]] ([] : Dir) with
  | none =>
    have hsome : (run true [[]] ([] : Dir)).isSome = true := rfl
    rw [hr] at hsome
    exact Bool.noConfusion hsome
  | some r =>
    exact ⟨r, rfl, (c5_force_mode [[]] [] r hr).1, (c5_force_mode [[]] [] r hr).2.1⟩

/-! ## C2: the reconciler deletion rule -/

/-- Counterexample to C2 as stated: the entry `"7"` parses as an integer ≥
the total card count 0, so the claimed rule deletes it, but the code ignores
it (its name lacks the `.json` suffix) and a full run keeps it on disk; and
the entry `"1.json2.json"` does not parse as an integer under the claimed
rule, yet the code deletes it (it strips every `".json"` substring and
parses `"12"`). -/
theorem c2_counterexample :
    specStaleCond 0 "7" = true ∧ staleCond 0 "7" = false ∧
      (∃ r, run false [] [("7", "x")] = some r ∧ r.dir.find "7" = some "x") ∧
      specStaleCond 0 "1.json2.json" = false ∧ staleCond 0 "1.json2.json" = true :=
  ⟨by decide, by decide, ⟨_, rfl, rfl⟩, by decide, by decide⟩

/-- Claim C2 amended: the reconciler deletes exactly the directory entries
that are not the index file, end in `".json"`, and whose name with every
`".json"` substring removed parses as an integer at least the total card
count; every other entry — a name that fails to parse, a name without the
`.json` suffix (even a bare integer), or the index file — is silently kept. -/
theorem c2_reconcile_rule (total : Nat) (d : Dir) (fname : String) :
    (fname ≠ "index.json" → pyEndsWith fname ".json" = true →
      ∀ k : Int, pyInt? (pyReplace fname ".json") = some k → (total : Int) ≤ k →
        ((reconcile total d).1).find fname = none) ∧
    (pyInt? (pyReplace fname ".json") = none →
      ((reconcile total d).1).find fname = d.find fname) ∧
    (pyEndsWith fname ".json" = false →
      ((reconcile total d).1).find fname = d.find fname) ∧
    (fname = "index.json" → ((reconcile total d).1).find fname = d.find fname) ∧
    (∀ k : Int, pyInt? (pyReplace fname ".json") = some k → k < (total : Int) →
      ((reconcile total d).1).find fname = d.find fname) := by
  refine ⟨?_, ?_, ?_, ?_, ?_⟩
  · intro hne hend k hk hge
    rw [reconcile_find, if_pos]
    simp only [staleCond, if_neg hne, hend, if_true, hk]
    exact decide_eq_true hge
  · intro hk
    rw [reconcile_find, if_neg]
    simp only [staleCond, hk]
    by_cases hne : fname = "index.json" <;> simp [hne]
  · intro hend
    rw [reconcile_find, if_neg]
    simp only [staleCond, hend]
    by_cases hne : fname = "index.json" <;> simp [hne]
  · intro hne
    rw [reconcile_find, if_neg]
    simp [staleCond, hne]
  · intro k hk hlt
    rw [reconcile_find, if_neg]
    simp only [staleCond, hk]
    by_cases hne : fname = "index.json" <;> simp [hne, not_le.mpr hlt]

/-- Witness for C2's amended rule at concrete inputs: `"5.json"` is removed
when the total is 3, a bare `"7"` is kept. -/
theorem c2_witness :
    ((reconcile 3 [("5.json", "x"), ("7", "y")]).1).find "5.json" = none ∧
      ((reconcile 3 [("5.json", "x"), ("7", "y")]).1).find "7" = some "y" :=
  ⟨(c2_reconcile_rule 3 [("5.json", "x"), ("7", "y")] "5.json").1 (by decide) (by decide)
      5 (by decide) (by decide),
    (c2_reconcile_rule 3 [("5.json", "x"), ("7", "y")] "7").2.2.1 (by decide)⟩

/-! ## C9: what happens before the input is loaded -/

/-- Counterexample to C9 as stated: on malformed input the filesystem is not
left untouched — the script creates the output directory (line 17) before it
attempts to load the input document (line 19). -/
theorem c9_counterexample :
    (program false none ⟨false, []⟩).1 ≠ (⟨false, []⟩ : FS) := by decide

/-- Claim C9 amended: when the input document is malformed or unreadable the
run aborts with no file in the output directory created, modified or deleted
— but the output directory itself is created before the load is attempted. -/
theorem c9_no_file_touched (force : Bool) (fs : FS) :
    (program force none fs).2 = none ∧ (program force none fs).1.dir = fs.dir ∧
      (program force none fs).1.dirExists = true :=
  ⟨rfl, rfl, rfl⟩

/-! ## C6: the properties field -/

/-- Claim C6 amended: the document carries a `properties` field exactly when
the record's theme field holds a truthy object, in which case
`properties.theme` is the entire theme value verbatim; otherwise the field is
omitted entirely, so an empty properties map never occurs. -/
theorem c6_properties_field (card : Card) (idx : Nat) :
    getField (build_metadata card idx) "properties" =
      (if themeCond card then some (.obj [("theme", themeVal card)]) else none) := by
  by_cases h : themeCond card
  · simp only [build_metadata, if_pos h]
    rfl
  · simp only [build_metadata, if_neg h]
    rfl

/-- Counterexample to C6 as stated: two records whose theme field is present
(a string, and an empty object) yet whose documents carry no properties
field — "present" is not the produced condition, "truthy object" is. -/
theorem c6_counterexample :
    (Card.get [("theme", Value.str "dark")] "theme").isSome = true ∧
      getField (build_metadata [("theme", Value.str "dark")] 0) "properties" = none ∧
      (Card.get [("theme", Value.obj [])] "theme").isSome = true ∧
      getField (build_metadata [("theme", Value.obj [])] 0) "properties" = none :=
  ⟨rfl, rfl, rfl, rfl⟩

/-! ## C10: the index-map key and the document name agree -/

/-- Claim C10: the key under which a card is entered in the index map (the
scrutinee of the sync loop, lines 107-109) equals the name field of the
metadata document built for it (line 28), including the synthesized
`Card_{i}` placeholder when the record has no name field. -/
theorem c10_name_consistency (card : Card) (i : Nat) (s : String)
    (h : (card.get "name").getD (.str ("Card_" ++ natRepr i)) = .str s) :
    getField (build_metadata card i) "name" = some (.str s) := by
  show some ((card.get "name").getD (.str ("Card_" ++ natRepr i))) = some (.str s)
  rw [h]

/-- Witness for C10: a record with no name field synthesizes `"Card_7"` at
position 7 in both places. -/
theorem c10_witness : getField (build_metadata ([] : Card) 7) "name" = some (.str "Card_7") :=
  c10_name_consistency [] 7 "Card_7" rfl

/-! ## C7: stat trait emission -/

theorem countTrait_append (l1 l2 : List Attr) (t : String) :
    countTrait (l1 ++ l2) t = countTrait l1 t + countTrait l2 t :=
  List.countP_append _ _ _

theorem mem_optAttr {a : Attr} {b : Bool} {t : String} {v : Value}
    (h : a ∈ optAttr b t v) : a.trait_type = t := by
  unfold optAttr at h
  split at h
  · simp only [List.mem_singleton] at h
    rw [h]
  · simp at h

theorem countTrait_eq_zero_of_not_mem (l : List Attr) (t : String)
    (h : ∀ a ∈ l, ¬ a.trait_type = t) : countTrait l t = 0 := by
  unfold countTrait
  rw [List.countP_eq_zero]
  intro a ha
  simpa using h a ha

theorem countTrait_optAttr_self (b : Bool) (t : String) (v : Value) :
    countTrait (optAttr b t v) t = if b = true then 1 else 0 := by
  cases b <;> simp [optAttr, countTrait, List.countP_cons]

theorem countTrait_cons (a : Attr) (l : List Attr) (t : String) :
    countTrait (a :: l) t = countTrait l t + (if a.trait_type = t then 1 else 0) := by
  unfold countTrait
  rw [List.countP_cons]
  simp

theorem countTrait_optAttr_ne (b : Bool) (t t' : String) (v : Value) (h : t ≠ t') :
    countTrait (optAttr b t v) t' = 0 :=
  countTrait_eq_zero_of_not_mem _ _ (fun _ ha he => h ((mem_optAttr ha).symm.trans he))

theorem mem_standardAttrs {a : Attr} {card : Card} (h : a ∈ standardAttrs card) :
    a.trait_type ∈ (["Type", "Rarity", "Level", "Move", "Artist"] : List String) := by
  unfold standardAttrs at h
  simp only [List.mem_append] at h
  rcases h with (((h | h) | h) | h) | h <;> rw [mem_optAttr h] <;> decide

theorem countTrait_standard_zero (card : Card) (t : String)
    (h : t ∉ (["Type", "Rarity", "Level", "Move", "Artist"] : List String)) :
    countTrait (standardAttrs card) t = 0 :=
  countTrait_eq_zero_of_not_mem _ _
    (fun _ ha he => h (he ▸ mem_standardAttrs ha))

theorem mem_statAttrFor {a : Attr} {card : Card} {key disp : String}
    (h : a ∈ statAttrFor card key disp) :
    a.trait_type = disp ∨ a.trait_type = disp ++ " Gradient" := by
  unfold statAttrFor at h
  split at h
  · rcases List.mem_cons.mp h with h1 | h1
    · exact Or.inl (by rw [h1])
    · exact Or.inr (mem_optAttr h1)
  · simp at h

theorem countTrait_statAttrFor_other (card : Card) (key disp t : String)
    (h1 : t ≠ disp) (h2 : t ≠ disp ++ " Gradient") :
    countTrait (statAttrFor card key disp) t = 0 := by
  apply countTrait_eq_zero_of_not_mem
  intro a ha he
  rcases mem_statAttrFor ha with hm | hm
  · exact h1 (he ▸ hm)
  · exact h2 (he ▸ hm)

theorem countTrait_statAttrFor_self (card : Card) (key disp : String)
    (hne : disp ≠ disp ++ " Gradient") :
    countTrait (statAttrFor card key disp) disp =
      if statCond card key = true then 1 else 0 := by
  unfold statAttrFor
  split
  · rw [countTrait_cons,
      countTrait_optAttr_ne _ _ _ _ (fun he : disp ++ " Gradient" = disp => hne he.symm)]
    simp
  · rfl

theorem countTrait_statAttrFor_grad (card : Card) (key disp : String)
    (hne : disp ≠ disp ++ " Gradient") :
    countTrait (statAttrFor card key disp) (disp ++ " Gradient") =
      if (statCond card key && (statColor card key).truthy) = true then 1 else 0 := by
  unfold statAttrFor
  split
  · next h =>
    rw [h, countTrait_cons, countTrait_optAttr_self,
      if_neg (fun he : disp = disp ++ " Gradient" => hne he)]
    simp only [Bool.true_and, Nat.add_zero]
  · next h =>
    rw [Bool.not_eq_true] at h
    rw [h]
    rfl

theorem mem_sectionAttrs {a : Attr} {label : String} {sec : Value}
    (h : a ∈ sectionAttrs label sec) :
    a.trait_type = label ++ " Background" ∨ a.trait_type = label ++ " Color" ∨
      a.trait_type = label ++ " Border" ∨ a.trait_type = label ++ " Accent" := by
  unfold sectionAttrs at h
  split at h
  · simp only [List.mem_append] at h
    rcases h with ((h | h) | h) | h
    · exact Or.inl (mem_optAttr h)
    · exact Or.inr (Or.inl (mem_optAttr h))
    · exact Or.inr (Or.inr (Or.inl (mem_optAttr h)))
    · exact Or.inr (Or.inr (Or.inr (mem_optAttr h)))
  · simp at h

theorem countTrait_themeAttrs_zero (card : Card) (t : String)
    (hmem : t ∉ (["Card Background",
      "Header Background", "Header Color", "Header Border", "Header Accent",
      "Image Area Background", "Image Area Color", "Image Area Border", "Image Area Accent",
      "Type Section Background", "Type Section Color", "Type Section Border",
      "Type Section Accent",
      "Flavor Text Background", "Flavor Text Color", "Flavor Text Border", "Flavor Text Accent",
      "Bottom Section Background", "Bottom Section Color", "Bottom Section Border",
      "Bottom Section Accent",
      "Stat Background", "Stat Color", "Stat Border", "Stat Accent",
      "Rarity Badge Background", "Rarity Badge Color", "Rarity Badge Border",
      "Rarity Badge Accent"] : List String)) :
    countTrait (themeAttrs card) t = 0 := by
  apply countTrait_eq_zero_of_not_mem
  intro a ha ht
  unfold themeAttrs at ha
  split at ha
  · rcases List.mem_append.mp ha with h1 | h1
    · have hte : t = "Card Background" := ht.symm.trans (mem_optAttr h1)
      subst hte
      exact hmem (by decide)
    · rcases List.mem_flatten.mp h1 with ⟨l, hl, hal⟩
      rcases List.mem_map.mp hl with ⟨p, hp, hpe⟩
      subst hpe
      have hm := mem_sectionAttrs hal
      fin_cases hp <;> (rcases hm with hm | hm | hm | hm <;>
        (have hte := ht.symm.trans hm; subst hte; exact hmem (by decide)))
  · simp at ha

theorem statCond_eq (card : Card) (key : String) :
    statCond card key =
      (((card.get key).getD .null).isObj &&
        (((card.get key).getD .null).dget "value").truthy) := by
  unfold statCond
  cases hv : (card.get key).getD .null with
  | obj l =>
    cases l with
    | nil => simp [Value.truthy, Value.isObj, Value.dget]
    | cons e rest => simp [Value.truthy, Value.isObj]
  | null => simp [Value.truthy, Value.isObj]
  | bool b => simp [Value.truthy, Value.isObj]
  | num n => simp [Value.truthy, Value.isObj]
  | str s2 => simp [Value.truthy, Value.isObj]
  | arr l => simp [Value.truthy, Value.isObj]

theorem attrsList_split (card : Card) :
    attrsList card = standardAttrs card ++
      (statAttrFor card "hp" "HP" ++ statAttrFor card "manaCost" "Mana Cost"
        ++ statAttrFor card "crit" "Crit") ++ themeAttrs card := rfl

/-- Claim C7: for each stat key among hp, manaCost, crit, exactly one value
trait with the stringified value is emitted exactly when the record's field
is an object with a truthy `value` sub-field (a falsy empty object never
qualifies, so the guard's extra truthiness test changes nothing), and exactly
one "`<display>` Gradient" trait is emitted — immediately after the value
trait — exactly when the object also carries a truthy `color`. -/
theorem c7_stat_traits (card : Card) (key disp : String)
    (hk : (key, disp) ∈ ([("hp", "HP"), ("manaCost", "Mana Cost"),
      ("crit", "Crit")] : List (String × String))) :
    countTrait (attrsList card) disp =
      (if (((card.get key).getD .null).isObj &&
          (((card.get key).getD .null).dget "value").truthy) = true then 1 else 0) ∧
    countTrait (attrsList card) (disp ++ " Gradient") =
      (if (((card.get key).getD .null).isObj &&
          (((card.get key).getD .null).dget "value").truthy &&
          (((card.get key).getD .null).dget "color").truthy) = true then 1 else 0) ∧
    (statCond card key = true → (statColor card key).truthy = true →
      ∃ pre post, attrsList card =
        pre ++ ⟨disp, .str (pyStr (statVal card key))⟩ ::
          ⟨disp ++ " Gradient", statColor card key⟩ :: post) ∧
    (statCond card key = true →
      Attr.mk disp (.str (pyStr (statVal card key))) ∈ attrsList card) := by
  have hsplit := attrsList_split card
  fin_cases hk
  · -- hp
    refine ⟨?_, ?_, ?_, ?_⟩
    · rw [hsplit, countTrait_append, countTrait_append, countTrait_append,
        countTrait_append, countTrait_standard_zero card _ (by decide),
        countTrait_statAttrFor_self card "hp" "HP" (by decide),
        countTrait_statAttrFor_other card "manaCost" "Mana Cost" "HP" (by decide) (by decide),
        countTrait_statAttrFor_other card "crit" "Crit" "HP" (by decide) (by decide),
        countTrait_themeAttrs_zero card "HP" (by decide), statCond_eq]
      by_cases hA : (((card.get "hp").getD .null).isObj &&
          (((card.get "hp").getD .null).dget "value").truthy) = true <;> simp [hA]
    · rw [hsplit, countTrait_append, countTrait_append, countTrait_append,
        countTrait_append, countTrait_standard_zero card _ (by decide),
        countTrait_statAttrFor_grad card "hp" "HP" (by decide),
        countTrait_statAttrFor_other card "manaCost" "Mana Cost" ("HP" ++ " Gradient")
          (by decide) (by decide),
        countTrait_statAttrFor_other card "crit" "Crit" ("HP" ++ " Gradient") (by decide) (by decide),
        countTrait_themeAttrs_zero card ("HP" ++ " Gradient") (by decide), statCond_eq]
      simp only [Nat.zero_add, Nat.add_zero]
      rfl
    · intro hc hcol
      refine ⟨standardAttrs card,
        statAttrFor card "manaCost" "Mana Cost" ++ statAttrFor card "crit" "Crit"
          ++ themeAttrs card, ?_⟩
      rw [hsplit, show statAttrFor card "hp" "HP" =
        ⟨"HP", .str (pyStr (statVal card "hp"))⟩ ::
          ⟨"HP" ++ " Gradient", statColor card "hp"⟩ :: [] from by
            simp [statAttrFor, hc, optAttr, hcol]]
      simp [List.append_assoc]
    · intro hc
      rw [hsplit]
      have hform : statAttrFor card "hp" "HP" =
          ⟨"HP", .str (pyStr (statVal card "hp"))⟩ ::
            optAttr (statColor card "hp").truthy ("HP" ++ " Gradient")
              (statColor card "hp") := by
        simp [statAttrFor, hc]
      simp [hform]
  · -- manaCost
    refine ⟨?_, ?_, ?_, ?_⟩
    · rw [hsplit, countTrait_append, countTrait_append, countTrait_append,
        countTrait_append, countTrait_standard_zero card _ (by decide),
        countTrait_statAttrFor_self card "manaCost" "Mana Cost" (by decide),
        countTrait_statAttrFor_other card "hp" "HP" "Mana Cost" (by decide) (by decide),
        countTrait_statAttrFor_other card "crit" "Crit" "Mana Cost" (by decide) (by decide),
        countTrait_themeAttrs_zero card "Mana Cost" (by decide), statCond_eq]
      by_cases hA : (((card.get "manaCost").getD .null).isObj &&
          (((card.get "manaCost").getD .null).dget "value").truthy) = true <;> simp [hA]
    · rw [hsplit, countTrait_append, countTrait_append, countTrait_append,
        countTrait_append, countTrait_standard_zero card _ (by decide),
        countTrait_statAttrFor_grad card "manaCost" "Mana Cost" (by decide),
        countTrait_statAttrFor_other card "hp" "HP" ("Mana Cost" ++ " Gradient")
          (by decide) (by decide),
        countTrait_statAttrFor_other card "crit" "Crit" ("Mana Cost" ++ " Gradient")
          (by decide) (by decide),
        countTrait_themeAttrs_zero card ("Mana Cost" ++ " Gradient") (by decide), statCond_eq]
      simp only [Nat.zero_add, Nat.add_zero]
      rfl
    · intro hc hcol
      refine ⟨standardAttrs card ++ statAttrFor card "hp" "HP",
        statAttrFor card "crit" "Crit" ++ themeAttrs card, ?_⟩
      rw [hsplit, show statAttrFor card "manaCost" "Mana Cost" =
        ⟨"Mana Cost", .str (pyStr (statVal card "manaCost"))⟩ ::
          ⟨"Mana Cost" ++ " Gradient", statColor card "manaCost"⟩ :: [] from by
            simp [statAttrFor, hc, optAttr, hcol]]
      simp [List.append_assoc]
    · intro hc
      rw [hsplit]
      have hform : statAttrFor card "manaCost" "Mana Cost" =
          ⟨"Mana Cost", .str (pyStr (statVal card "manaCost"))⟩ ::
            optAttr (statColor card "manaCost").truthy ("Mana Cost" ++ " Gradient")
              (statColor card "manaCost") := by
        simp [statAttrFor, hc]
      simp [hform]
  · -- crit
    refine ⟨?_, ?_, ?_, ?_⟩
    · rw [hsplit, countTrait_append, countTrait_append, countTrait_append,
        countTrait_append, countTrait_standard_zero card _ (by decide),
        countTrait_statAttrFor_self card "crit" "Crit" (by decide),
        countTrait_statAttrFor_other card "hp" "HP" "Crit" (by decide) (by decide),
        countTrait_statAttrFor_other card "manaCost" "Mana Cost" "Crit"
          (by decide) (by decide),
        countTrait_themeAttrs_zero card "Crit" (by decide), statCond_eq]
      by_cases hA : (((card.get "crit").getD .null).isObj &&
          (((card.get "crit").getD .null).dget "value").truthy) = true <;> simp [hA]
    · rw [hsplit, countTrait_append, countTrait_append, countTrait_append,
        countTrait_append, countTrait_standard_zero card _ (by decide),
        countTrait_statAttrFor_grad card "crit" "Crit" (by decide),
        countTrait_statAttrFor_other card "hp" "HP" ("Crit" ++ " Gradient") (by decide) (by decide),
        countTrait_statAttrFor_other card "manaCost" "Mana Cost" ("Crit" ++ " Gradient")
          (by decide) (by decide),
        countTrait_themeAttrs_zero card ("Crit" ++ " Gradient") (by decide), statCond_eq]
      simp only [Nat.zero_add, Nat.add_zero]
      rfl
    · intro hc hcol
      refine ⟨standardAttrs card ++ statAttrFor card "hp" "HP"
          ++ statAttrFor card "manaCost" "Mana Cost",
        themeAttrs card, ?_⟩
      rw [hsplit, show statAttrFor card "crit" "Crit" =
        ⟨"Crit", .str (pyStr (statVal card "crit"))⟩ ::
          ⟨"Crit" ++ " Gradient", statColor card "crit"⟩ :: [] from by
            simp [statAttrFor, hc, optAttr, hcol]]
      simp [List.append_assoc]
    · intro hc
      rw [hsplit]
      have hform : statAttrFor card "crit" "Crit" =
          ⟨"Crit", .str (pyStr (statVal card "crit"))⟩ ::
            optAttr (statColor card "crit").truthy ("Crit" ++ " Gradient")
              (statColor card "crit") := by
        simp [statAttrFor, hc]
      simp [hform]

/-- Witness for C7: a record whose hp stat has a value but no color gets
exactly one "HP" trait and no "HP Gradient" trait. -/
theorem c7_witness :
    countTrait (attrsList [("hp", Value.obj [("value", Value.num 5)])]) "HP" = 1 ∧
      countTrait (attrsList [("hp", Value.obj [("value", Value.num 5)])])
        ("HP" ++ " Gradient") = 0 := by
  have h := c7_stat_traits [("hp", Value.obj [("value", Value.num 5)])] "hp" "HP" (by decide)
  exact ⟨h.1.trans (by decide), h.2.1.trans (by decide)⟩

/-! ## C8: the index map -/

theorem syncLoop_imap_absent (f : Bool) (cs : List Card) :
    ∀ (i0 : Nat) (st st' : SyncState) (s : String), syncLoop f i0 cs st = some st' →
    (∀ j (hj : j < cs.length),
        ((cs.get ⟨j, hj⟩).get "name").getD (.str ("Card_" ++ natRepr (i0 + j))) ≠ .str s) →
    findMap st'.imap s = findMap st.imap s := by
  induction cs with
  | nil =>
    intro i0 st st' s h _
    rw [syncLoop_nil] at h
    injection h with h'
    rw [h']
  | cons card rest ih =>
    intro i0 st st' s h hno
    rw [syncLoop_cons] at h
    cases hname : (card.get "name").getD (.str ("Card_" ++ natRepr i0)) with
    | str name =>
      rw [hname] at h
      simp only [] at h
      have hnamene : name ≠ s := by
        intro he
        subst he
        exact hno 0 (by simp) hname
      have hrest : ∀ j (hj : j < rest.length),
          ((rest.get ⟨j, hj⟩).get "name").getD
            (.str ("Card_" ++ natRepr (i0 + 1 + j))) ≠ .str s := by
        intro j hj
        have := hno (j + 1) (by simp; omega)
        rwa [show i0 + (j + 1) = i0 + 1 + j from by omega] at this
      split at h <;>
        (rw [ih (i0 + 1) _ _ s h hrest]
         exact assocFind_upd_ne st.imap name _ s (fun he => hnamene he.symm))
    | null => rw [hname] at h; exact Option.noConfusion h
    | bool b => rw [hname] at h; exact Option.noConfusion h
    | num n => rw [hname] at h; exact Option.noConfusion h
    | arr l => rw [hname] at h; exact Option.noConfusion h
    | obj l => rw [hname] at h; exact Option.noConfusion h

theorem syncLoop_imap_last (f : Bool) (cs : List Card) :
    ∀ (i0 : Nat) (st st' : SyncState) (p : Nat) (hp : p < cs.length) (s : String),
    syncLoop f i0 cs st = some st' →
    ((cs.get ⟨p, hp⟩).get "name").getD (.str ("Card_" ++ natRepr (i0 + p))) = .str s →
    (∀ q (hq : q < cs.length), p < q →
        ((cs.get ⟨q, hq⟩).get "name").getD (.str ("Card_" ++ natRepr (i0 + q))) ≠ .str s) →
    findMap st'.imap s = some ⟨i0 + p, pySlug s⟩ := by
  induction cs with
  | nil => intro i0 st st' p hp; exact absurd hp (by simp)
  | cons card rest ih =>
    intro i0 st st' p hp s h hps hlast
    rw [syncLoop_cons] at h
    cases hname : (card.get "name").getD (.str ("Card_" ++ natRepr i0)) with
    | str name =>
      rw [hname] at h
      simp only [] at h
      cases p with
      | zero =>
        have hns : name = s := by
          have h2 : Value.str name = Value.str s := hname.symm.trans hps
          injection h2
        subst hns
        have hrest : ∀ j (hj : j < rest.length),
            ((rest.get ⟨j, hj⟩).get "name").getD
              (.str ("Card_" ++ natRepr (i0 + 1 + j))) ≠ .str name := by
          intro j hj
          have := hlast (j + 1) (by simp; omega) (by omega)
          rwa [show i0 + (j + 1) = i0 + 1 + j from by omega] at this
        rw [Nat.add_zero]
        split at h <;>
          (rw [syncLoop_imap_absent f rest (i0 + 1) _ _ name h hrest]
           exact assocFind_upd_self st.imap name _)
      | succ k =>
        have hk : k < rest.length := by simp at hp; omega
        have hps2 : ((rest.get ⟨k, hk⟩).get "name").getD
            (.str ("Card_" ++ natRepr (i0 + 1 + k))) = .str s := by
          have h2 := hps
          rwa [show i0 + (k + 1) = i0 + 1 + k from by omega] at h2
        have hlast2 : ∀ q (hq : q < rest.length), k < q →
            ((rest.get ⟨q, hq⟩).get "name").getD
              (.str ("Card_" ++ natRepr (i0 + 1 + q))) ≠ .str s := by
          intro q hq hkq
          have := hlast (q + 1) (by simp; omega) (by omega)
          rwa [show i0 + (q + 1) = i0 + 1 + q from by omega] at this
        rw [show i0 + (k + 1) = i0 + 1 + k from by omega]
        split at h <;> exact ih (i0 + 1) _ _ k hk s h hps2 hlast2
    | null => rw [hname] at h; exact Option.noConfusion h
    | bool b => rw [hname] at h; exact Option.noConfusion h
    | num n => rw [hname] at h; exact Option.noConfusion h
    | arr l => rw [hname] at h; exact Option.noConfusion h
    | obj l => rw [hname] at h; exact Option.noConfusion h

/-- Claim C8: each card's index-map entry records its 0-based position and
the slug of its name (here the later of duplicate names wins: the entry of a
card whose name never reappears later is its own position and slug); and on
the input named ["Alpha Beta", "Gamma!!", "Alpha Beta"] the map has exactly
2 entries, "Alpha Beta" maps to index 2 with slug "alpha-beta", and
"Gamma!!" slugs to "gamma". -/
theorem c8_index_map :
    (∀ (f : Bool) (cards : List Card) (d0 : Dir) (r : RunResult) (i : Nat) (s : String)
      (hi : i < cards.length),
      run f cards d0 = some r →
      ((cards.get ⟨i, hi⟩).get "name").getD (.str ("Card_" ++ natRepr i)) = .str s →
      (∀ j (hj : j < cards.length), i < j →
        ((cards.get ⟨j, hj⟩).get "name").getD (.str ("Card_" ++ natRepr j)) ≠ .str s) →
      findMap r.imap s = some ⟨i, pySlug s⟩) ∧
    ((run false [[("name", Value.str "Alpha Beta")], [("name", Value.str "Gamma!!")],
        [("name", Value.str "Alpha Beta")]] []).map
      (fun r => (r.imap.length, findMap r.imap "Alpha Beta", findMap r.imap "Gamma!!"))
      = some (2, some ⟨2, "alpha-beta"⟩, some ⟨1, "gamma"⟩)) := by
  constructor
  · intro f cards d0 r i s hi hr hname hlast
    obtain ⟨st, hs, -, -, -, -, himap⟩ := run_eq f cards d0 r hr
    rw [himap]
    have hres := syncLoop_imap_last f cards 0 _ _ i hi s hs
      (by simp only [Nat.zero_add]; exact hname)
      (by intro q hq hiq; simp only [Nat.zero_add]; exact hlast q hq hiq)
    rwa [Nat.zero_add] at hres
  · rfl

/-- Witness for C8's general part at a concrete one-card input. -/
theorem c8_witness :
    ∃ r, run false [[("name", Value.str "Hello World")]] ([] : Dir) = some r ∧
      findMap r.imap "Hello World" = some ⟨0, "hello-world"⟩ := by
  cases hr : run false [[("name", Value.str "Hello World")]] ([] : Dir) with
  | none =>
    have hsome : (run false [[("name", Value.str "Hello World")]] ([] : Dir)).isSome
        = true := rfl
    rw [hr] at hsome
    exact Bool.noConfusion hsome
  | some r =>
    have hlast : ∀ j (hj : j < ([[("name", Value.str "Hello World")]] : List Card).length),
        0 < j →
        ((([[("name", Value.str "Hello World")]] : List Card).get ⟨j, hj⟩).get "name").getD
          (.str ("Card_" ++ natRepr j)) ≠ .str "Hello World" := by
      intro j hj h0j
      simp only [List.length_cons, List.length_nil] at hj
      exact absurd hj (by omega)
    exact ⟨r, rfl,
      c8_index_map.1 false _ [] r 0 "Hello World" (by decide) hr rfl hlast⟩

/-! ## C3 and C4: completeness and staleness -/

theorem assocUpd_of_find_none {A : Type} (l : List (String × A)) (k : String) (v : A)
    (h : assocFind l k = none) : assocUpd l k v = l ++ [(k, v)] := by
  induction l with
  | nil => rfl
  | cons e rest ih =>
    rw [assocFind_cons] at h
    by_cases he : e.1 = k
    · rw [if_pos he] at h
      exact Option.noConfusion h
    · rw [if_neg he] at h
      show assocUpd (e :: rest) k v = e :: (rest ++ [(k, v)])
      unfold assocUpd
      rw [if_neg he, ih h]

theorem dirFind_cons (e : String × String) (d : Dir) (p : String) :
    Dir.find (e :: d) p = if e.1 = p then some e.2 else Dir.find d p := assocFind_cons e d p

theorem assocFind_upd_isSome {A : Type} (l : List (String × A)) (k : String) (v : A)
    (p : String) (h : (assocFind (assocUpd l k v) p).isSome = true) :
    p = k ∨ (assocFind l p).isSome = true := by
  by_cases hp : p = k
  · exact Or.inl hp
  · rw [assocFind_upd_ne l k v p hp] at h
    exact Or.inr h

theorem dirFind_append_none (d1 d2 : Dir) (p : String)
    (h1 : Dir.find d1 p = none) (h2 : Dir.find d2 p = none) :
    Dir.find (d1 ++ d2) p = none := by
  induction d1 with
  | nil => exact h2
  | cons e d ih =>
    rw [dirFind_cons] at h1
    show Dir.find (e :: (d ++ d2)) p = none
    rw [dirFind_cons]
    by_cases he : e.1 = p
    · rw [if_pos he] at h1
      exact Option.noConfusion h1
    · rw [if_neg he] at h1
      rw [if_neg he]
      exact ih h1

theorem docList_find_lt (cs : List Card) : ∀ (i0 j : Nat) (hj : j < cs.length),
    Dir.find (docList i0 cs) (fileName (i0 + j)) =
      some (serializeValue (build_metadata (cs.get ⟨j, hj⟩) (i0 + j))) := by
  induction cs with
  | nil => intro i0 j hj; exact absurd hj (by simp)
  | cons card rest ih =>
    intro i0 j hj
    show Dir.find ((fileName i0, serializeValue (build_metadata card i0)) ::
      docList (i0 + 1) rest) (fileName (i0 + j)) = _
    cases j with
    | zero =>
      simp only [Nat.add_zero]
      rw [show Dir.find ((fileName i0, serializeValue (build_metadata card i0)) ::
          docList (i0 + 1) rest) (fileName i0) =
        if (fileName i0, serializeValue (build_metadata card i0)).1 = fileName i0 then
          some (serializeValue (build_metadata card i0))
        else Dir.find (docList (i0 + 1) rest) (fileName i0) from
          assocFind_cons _ _ _]
      rw [if_pos rfl]
      rfl
    | succ k =>
      have hk : k < rest.length := by simp at hj; omega
      rw [show Dir.find ((fileName i0, serializeValue (build_metadata card i0)) ::
          docList (i0 + 1) rest) (fileName (i0 + (k + 1))) =
        if (fileName i0, serializeValue (build_metadata card i0)).1
            = fileName (i0 + (k + 1)) then
          some (serializeValue (build_metadata card i0))
        else Dir.find (docList (i0 + 1) rest) (fileName (i0 + (k + 1))) from
          assocFind_cons _ _ _]
      rw [if_neg (fun he => absurd (fileName_inj he) (by omega))]
      have := ih (i0 + 1) k hk
      rwa [show i0 + 1 + k = i0 + (k + 1) from by omega] at this

theorem docList_find_none (cs : List Card) : ∀ (i0 : Nat) (p : String),
    (∀ j, j < cs.length → p ≠ fileName (i0 + j)) →
    Dir.find (docList i0 cs) p = none := by
  induction cs with
  | nil => intro i0 p _; rfl
  | cons card rest ih =>
    intro i0 p hp
    show Dir.find ((fileName i0, serializeValue (build_metadata card i0)) ::
      docList (i0 + 1) rest) p = none
    rw [show Dir.find ((fileName i0, serializeValue (build_metadata card i0)) ::
        docList (i0 + 1) rest) p =
      if (fileName i0, serializeValue (build_metadata card i0)).1 = p then
        some (serializeValue (build_metadata card i0))
      else Dir.find (docList (i0 + 1) rest) p from assocFind_cons _ _ _]
    rw [if_neg (fun he => hp 0 (by simp) (by rw [← he, Nat.add_zero]))]
    apply ih (i0 + 1) p
    intro j hj
    have := hp (j + 1) (by simp; omega)
    rwa [show i0 + (j + 1) = i0 + 1 + j from by omega] at this

theorem syncLoop_fresh_dir (f : Bool) (cs : List Card) :
    ∀ (i0 : Nat) (st st' : SyncState),
    (∀ j, j < cs.length → st.dir.find (fileName (i0 + j)) = none) →
    syncLoop f i0 cs st = some st' →
    st'.dir = st.dir ++ docList i0 cs := by
  induction cs with
  | nil =>
    intro i0 st st' _ hs
    rw [syncLoop_nil] at hs
    injection hs with h'
    rw [← h']
    simp [docList]
  | cons card rest ih =>
    intro i0 st st' hfresh hs
    rw [syncLoop_cons] at hs
    cases hname : (card.get "name").getD (.str ("Card_" ++ natRepr i0)) with
    | str name =>
      rw [hname] at hs
      simp only [] at hs
      have h0 : st.dir.find (fileName i0) = none := by
        have := hfresh 0 (by simp)
        rwa [Nat.add_zero] at this
      rw [if_neg (fun hc => Option.noConfusion (h0 ▸ hc.2))] at hs
      have hwrite : st.dir.write (fileName i0) (serializeValue (build_metadata card i0)) =
          st.dir ++ [(fileName i0, serializeValue (build_metadata card i0))] :=
        assocUpd_of_find_none _ _ _ h0
      have hfresh2 : ∀ j, j < rest.length →
          (st.dir ++ [(fileName i0, serializeValue (build_metadata card i0))]).find
            (fileName (i0 + 1 + j)) = none := by
        intro j hj
        have hd0 : st.dir.find (fileName (i0 + 1 + j)) = none := by
          have := hfresh (j + 1) (by simp; omega)
          rwa [show i0 + (j + 1) = i0 + 1 + j from by omega] at this
        have hne : fileName i0 ≠ fileName (i0 + 1 + j) :=
          fun he => absurd (fileName_inj he) (by omega)
        apply dirFind_append_none _ _ _ hd0
        rw [dirFind_cons, if_neg hne]
        rfl
      have hrec := ih (i0 + 1)
        ⟨st.dir.write (fileName i0) (serializeValue (build_metadata card i0)),
          st.written + 1, st.skipped, updMap st.imap name ⟨i0, pySlug name⟩⟩ st'
        (by intro j hj; show (st.dir.write _ _).find _ = none; rw [hwrite]; exact hfresh2 j hj)
        hs
      rw [hrec]
      show (st.dir.write _ _) ++ docList (i0 + 1) rest = _
      rw [hwrite, List.append_assoc]
      rfl
    | null => rw [hname] at hs; exact Option.noConfusion hs
    | bool b => rw [hname] at hs; exact Option.noConfusion hs
    | num n => rw [hname] at hs; exact Option.noConfusion hs
    | arr l => rw [hname] at hs; exact Option.noConfusion hs
    | obj l => rw [hname] at hs; exact Option.noConfusion hs

theorem staleCond_index (total : Nat) : staleCond total "index.json" = false := rfl

theorem docList_filter_keep (total : Nat) (cs : List Card) : ∀ i0 : Nat,
    (∀ j, j < cs.length → i0 + j < total) →
    (docList i0 cs).filter (fun e => !staleCond total e.1) = docList i0 cs := by
  induction cs with
  | nil => intro i0 _; rfl
  | cons card rest ih =>
    intro i0 hlt
    show List.filter _ ((fileName i0, serializeValue (build_metadata card i0)) ::
      docList (i0 + 1) rest) = _
    rw [List.filter_cons]
    have h0 : staleCond total (fileName i0) = false := by
      rw [staleCond_fileName]
      have := hlt 0 (by simp)
      simp only [Nat.add_zero] at this
      simp [this]
    rw [h0]
    simp only [Bool.not_false, if_true]
    rw [ih (i0 + 1) (fun j hj => by
      have := hlt (j + 1) (by simp; omega)
      rwa [show i0 + (j + 1) = i0 + 1 + j from by omega] at this)]
    rfl

theorem docList_stale_count (M : Nat) (cs : List Card) : ∀ i0 : Nat,
    (docList i0 cs).countP (fun e => staleCond M e.1) =
      cs.length - min cs.length (M - i0) := by
  induction cs with
  | nil => intro i0; simp [docList]
  | cons card rest ih =>
    intro i0
    show List.countP _ ((fileName i0, serializeValue (build_metadata card i0)) ::
      docList (i0 + 1) rest) = _
    rw [List.countP_cons, ih (i0 + 1), staleCond_fileName]
    by_cases hM : M ≤ i0
    · rw [if_pos (by simp [hM])]
      simp only [List.length_cons]
      omega
    · rw [if_neg (by simp; omega)]
      simp only [List.length_cons]
      omega

/-- A run against an empty directory leaves exactly the per-card documents,
in order, followed by the index file. -/
theorem run_from_empty (f : Bool) (cards : List Card) (r : RunResult)
    (h : run f cards [] = some r) :
    r.dir = docList 0 cards ++ [("index.json", serializeIndexMap r.imap)] := by
  obtain ⟨st, hs, hdir, -, -, -, himap⟩ := run_eq f cards [] r h
  have hd1 : st.dir = [] ++ docList 0 cards :=
    syncLoop_fresh_dir f cards 0 ⟨[], 0, 0, []⟩ st (fun j _ => rfl) hs
  rw [List.nil_append] at hd1
  rw [hdir, hd1, reconcile_fst,
    docList_filter_keep cards.length cards 0 (by intro j hj; omega)]
  show Dir.write (docList 0 cards) "index.json" (serializeIndexMap st.imap) = _
  rw [show Dir.write (docList 0 cards) "index.json" (serializeIndexMap st.imap) =
      docList 0 cards ++ [("index.json", serializeIndexMap st.imap)] from
    assocUpd_of_find_none _ _ _ (docList_find_none cards 0 "index.json"
      (fun j _ he => fileName_ne_index (0 + j) he.symm)), himap]

theorem syncLoop_find_provenance (f : Bool) (cs : List Card) :
    ∀ (i0 : Nat) (st st' : SyncState) (p : String), syncLoop f i0 cs st = some st' →
    (st'.dir.find p).isSome = true →
    (st.dir.find p).isSome = true ∨ ∃ j, j < cs.length ∧ p = fileName (i0 + j) := by
  induction cs with
  | nil =>
    intro i0 st st' p h hp
    rw [syncLoop_nil] at h
    injection h with h'
    rw [h']
    exact Or.inl hp
  | cons card rest ih =>
    intro i0 st st' p h hp
    rw [syncLoop_cons] at h
    cases hname : (card.get "name").getD (.str ("Card_" ++ natRepr i0)) with
    | str name =>
      rw [hname] at h
      simp only [] at h
      split at h
      · rcases ih (i0 + 1) _ _ p h hp with h1 | ⟨j, hj, hpe⟩
        · exact Or.inl h1
        · exact Or.inr ⟨j + 1, by simp; omega,
            by rw [hpe]; congr 1; omega⟩
      · rcases ih (i0 + 1) _ _ p h hp with h1 | ⟨j, hj, hpe⟩
        · rcases assocFind_upd_isSome st.dir (fileName i0)
            (serializeValue (build_metadata card i0)) p h1 with h2 | h2
          · exact Or.inr ⟨0, by simp, by rw [h2, Nat.add_zero]⟩
          · exact Or.inl h2
        · exact Or.inr ⟨j + 1, by simp; omega,
            by rw [hpe]; congr 1; omega⟩
    | null => rw [hname] at h; exact Option.noConfusion h
    | bool b => rw [hname] at h; exact Option.noConfusion h
    | num n => rw [hname] at h; exact Option.noConfusion h
    | arr l => rw [hname] at h; exact Option.noConfusion h
    | obj l => rw [hname] at h; exact Option.noConfusion h

theorem assocFind_isSome_mem {A : Type} (l : List (String × A)) (k : String)
    (h : (assocFind l k).isSome = true) : ∃ e ∈ l, e.1 = k := by
  induction l with
  | nil => simp [assocFind] at h
  | cons e rest ih =>
    rw [assocFind_cons] at h
    by_cases he : e.1 = k
    · exact ⟨e, by simp, he⟩
    · rw [if_neg he] at h
      obtain ⟨e2, he2, hk⟩ := ih h
      exact ⟨e2, by simp [he2], hk⟩

/-- Claim C3 amended: starting from a directory whose entries are all
canonically named documents or the index file (e.g. empty, or the output of
a previous run), after a run the directory holds exactly one document per
input record at indices 0..N-1 together with the index file, and nothing
else; a non-canonically named entry (such as "00.json") would instead
persist untouched. -/
theorem c3_completeness (cards : List Card) (d0 : Dir) (r : RunResult)
    (hd0 : ∀ e ∈ d0, (∃ i : Nat, e.1 = fileName i) ∨ e.1 = "index.json")
    (h : run false cards d0 = some r) :
    (∀ i (hi : i < cards.length),
      r.dir.find (fileName i) =
        some (serializeValue (build_metadata (cards.get ⟨i, hi⟩) i))) ∧
    (∀ p, (r.dir.find p).isSome = true ↔
      ((∃ i, i < cards.length ∧ p = fileName i) ∨ p = "index.json")) := by
  refine ⟨run_find_fileName false cards d0 r h, ?_⟩
  obtain ⟨st, hs, hdir, -, -, -, -⟩ := run_eq false cards d0 r h
  intro p
  constructor
  · intro hp
    by_cases hpi : p = "index.json"
    · exact Or.inr hpi
    · rw [hdir, dirFind_write_ne _ _ _ _ hpi, reconcile_find] at hp
      by_cases hst : staleCond cards.length p = true
      · rw [if_pos hst] at hp
        simp at hp
      · rw [if_neg hst] at hp
        rcases syncLoop_find_provenance false cards 0 _ _ p hs hp with h1 | ⟨j, hj, hpe⟩
        · obtain ⟨e, hemem, hek⟩ := assocFind_isSome_mem d0 p h1
          rcases hd0 e hemem with ⟨i, hei⟩ | hei
          · have hpf : p = fileName i := hek.symm.trans hei
            have hfalse : staleCond cards.length p = false := by
              rwa [Bool.not_eq_true] at hst
            rw [hpf, staleCond_fileName] at hfalse
            have hiN : i < cards.length := by
              simp only [decide_eq_false_iff_not, not_le] at hfalse
              exact hfalse
            exact Or.inl ⟨i, hiN, hpf⟩
          · exact absurd (hek.symm.trans hei) hpi
        · rw [Nat.zero_add] at hpe
          exact Or.inl ⟨j, hj, hpe⟩
  · intro hor
    rcases hor with ⟨i, hi, hpe⟩ | hpe
    · rw [hpe, run_find_fileName false cards d0 r h i hi]
      rfl
    · rw [hpe, hdir]
      rw [show Dir.find (((reconcile cards.length st.dir).1).write "index.json"
          (serializeIndexMap st.imap)) "index.json" =
        some (serializeIndexMap st.imap) from dirFind_write_self _ _ _]
      rfl

/-- Counterexample to C3 as stated: with a pre-existing non-canonical entry
"00.json" in the output directory, a one-card run completes and the entry is
still there — the final directory does not consist solely of the documents
0..N-1 plus the index file. -/
theorem c3_counterexample :
    ∃ r, run false [[]] [("00.json", "junk")] = some r ∧
      (r.dir.find "00.json").isSome = true ∧
      ¬ ((∃ i, i < 1 ∧ "00.json" = fileName i) ∨ "00.json" = "index.json") := by
  refine ⟨_, rfl, rfl, ?_⟩
  intro hcontra
  rcases hcontra with ⟨i, hi, he⟩ | he
  · interval_cases i
    exact absurd he (by decide)
  · exact absurd he (by decide)

/-- Witness for C3 at a concrete one-card input from an empty directory. -/
theorem c3_witness :
    ∃ r, run false [[]] ([] : Dir) = some r ∧
      ∀ p, (r.dir.find p).isSome = true ↔
        ((∃ i, i < 1 ∧ p = fileName i) ∨ p = "index.json") := by
  cases hr : run false [[]] ([] : Dir) with
  | none =>
    have hsome : (run false [[]] ([] : Dir)).isSome = true := rfl
    rw [hr] at hsome
    exact Bool.noConfusion hsome
  | some r =>
    exact ⟨r, rfl, (c3_completeness [[]] [] r (by simp) hr).2⟩

/-- Claim C4: after a run with N records from an empty directory, re-running
with the input shrunk to its first M records (M < N) writes nothing (the M
retained documents are skipped, left byte-identical), and deletes exactly
the N−M documents with index ≥ M. -/
theorem c4_shrink_staleness (f : Bool) (cards : List Card) (M : Nat) (r1 : RunResult)
    (h1 : run f cards [] = some r1) (hM : M < cards.length) :
    ∃ r2, run false (cards.take M) r1.dir = some r2 ∧
      r2.written = 0 ∧ r2.skipped = M ∧ r2.stale = cards.length - M ∧
      (∀ i, i < M → r2.dir.find (fileName i) = r1.dir.find (fileName i)) ∧
      (∀ j, M ≤ j → j < cards.length → r2.dir.find (fileName j) = none) := by
  obtain ⟨st1, hs1, -, -, -, -, -⟩ := run_eq f cards [] r1 h1
  have hnames := syncLoop_names f cards 0 _ _ hs1
  have hfind := run_find_fileName f cards [] r1 h1
  have hlen : (cards.take M).length = M := by
    rw [List.length_take]
    omega
  have hyp : ∀ j (hj : j < (cards.take M).length),
      Dir.find r1.dir (fileName (0 + j)) =
        some (serializeValue (build_metadata ((cards.take M).get ⟨j, hj⟩) (0 + j))) ∧
      ∃ s, (((cards.take M).get ⟨j, hj⟩).get "name").getD
          (.str ("Card_" ++ natRepr (0 + j))) = .str s := by
    intro j hj
    have hjM : j < M := hlen ▸ hj
    have hjN : j < cards.length := by omega
    have hget : (cards.take M).get ⟨j, hj⟩ = cards.get ⟨j, hjN⟩ := by
      rw [List.get_eq_getElem, List.get_eq_getElem, List.getElem_take]
    constructor
    · simp only [Nat.zero_add, hget]
      exact hfind j hjN
    · have hn := hnames j hjN
      simp only [Nat.zero_add] at hn ⊢
      rwa [hget]
  obtain ⟨m, hm⟩ := syncLoop_all_skip (cards.take M) 0 ⟨r1.dir, 0, 0, []⟩ hyp
  refine ⟨⟨((reconcile (cards.take M).length r1.dir).1).write "index.json"
      (serializeIndexMap m), 0, 0 + (cards.take M).length,
      (reconcile (cards.take M).length r1.dir).2, m⟩, ?_, rfl, ?_, ?_, ?_, ?_⟩
  · unfold run
    rw [hm]
  · simp [hlen]
  · show (reconcile (cards.take M).length r1.dir).2 = cards.length - M
    rw [hlen]
    show r1.dir.countP (fun e => staleCond M e.1) = cards.length - M
    rw [run_from_empty f cards r1 h1, List.countP_append, docList_stale_count M cards 0]
    simp only [List.countP_cons, List.countP_nil, staleCond_index]
    simp
    omega
  · intro i hi
    show Dir.find (((reconcile (cards.take M).length r1.dir).1).write "index.json"
      (serializeIndexMap m)) (fileName i) = _
    rw [dirFind_write_ne _ _ _ _ (fileName_ne_index i), reconcile_find, hlen,
      staleCond_fileName, if_neg (by simp; omega)]
  · intro j hMj hjN
    show Dir.find (((reconcile (cards.take M).length r1.dir).1).write "index.json"
      (serializeIndexMap m)) (fileName j) = none
    rw [dirFind_write_ne _ _ _ _ (fileName_ne_index j), reconcile_find, hlen,
      staleCond_fileName, if_pos (by simp; omega)]

/-- Witness for C4: two records shrunk to one. -/
theorem c4_witness :
    ∃ r1, run false [[], [("name", Value.str "B")]] ([] : Dir) = some r1 ∧
    ∃ r2, run false ([[], [("name", Value.str "B")]].take 1) r1.dir = some r2 ∧
      r2.written = 0 ∧ r2.skipped = 1 ∧ r2.stale = 1 ∧
      (∀ i, i < 1 → r2.dir.find (fileName i) = r1.dir.find (fileName i)) ∧
      (∀ j, 1 ≤ j → j < 2 → r2.dir.find (fileName j) = none) := by
  cases hr : run false [[], [("name", Value.str "B")]] ([] : Dir) with
  | none =>
    have hsome : (run false [[], [("name", Value.str "B")]] ([] : Dir)).isSome = true := rfl
    rw [hr] at hsome
    exact Bool.noConfusion hsome
  | some r1 =>
    exact ⟨r1, rfl, c4_shrink_staleness false [[], [("name", Value.str "B")]] 1 r1 hr
      (by decide)⟩
